import Mathlib

/-!
# Classic web-service composition engine: a formal model

Shallow embedding of the composition search engine of this repository:
`backend/utils/qos_calculator.py` (utility and QoS aggregation),
`backend/models/service.py` (data model) and
`backend/services/classic_composer.py` (reachability pre-filter and the
three search strategies).

Modelling conventions:
* Python floats are modelled as exact rationals (`ℚ`); Python float literals
  such as `0.4` become the exact rationals they denote.
* Python sets of strings are modelled as `Finset String`; Python dicts keyed
  by frozensets are modelled as association lists with first-match lookup
  (an inserted key shadows older entries, like a dict overwrite).
* The wall-clock deadline (`time.time() < deadline`) is abstracted by a
  `timeLimit : ℕ` parameter: the number of loop iterations the deadline
  still allows.  The iteration ceiling (`max_iterations = 500000`) is the
  recursion fuel.
* Human-readable explanation strings that interpolate formatted floats are
  not reproduced; explanation strings built from constants and integers are
  reproduced exactly.
* The execution trace list and the visualization graph (`algorithm_trace`,
  `graph_data`, `_build_service_graph`) are observability output not touched
  by any claim and are not modelled.
-/

namespace WSComp

/-- Nine-dimensional QoS vector (`models/service.py`, class `QoS`).
`QoS()` without arguments defaults every field to `0`. -/
structure QoS where
  response_time : ℚ
  availability : ℚ
  throughput : ℚ
  successability : ℚ
  reliability : ℚ
  compliance : ℚ
  best_practices : ℚ
  latency : ℚ
  documentation : ℚ
deriving DecidableEq

/-- Python `QoS()`: all fields default to 0. -/
def QoS.default : QoS := ⟨0, 0, 0, 0, 0, 0, 0, 0, 0⟩

/-- The dict returned by `QoS.meets_constraints`: one boolean per canonical
constraint name, in the fixed nine-key shape the code always produces. -/
structure QoSChecks where
  responseTime : Bool
  availability : Bool
  throughput : Bool
  successability : Bool
  reliability : Bool
  compliance : Bool
  bestPractices : Bool
  latency : Bool
  documentation : Bool
deriving DecidableEq

/-- Source `QoS.meets_constraints` (`models/service.py`): direction-aware
threshold checks, `≤` for the time-like metrics and `≥` for the rest. -/
def QoS.meets_constraints (q : QoS) (c : QoS) : QoSChecks where
  responseTime := decide (q.response_time ≤ c.response_time)
  availability := decide (c.availability ≤ q.availability)
  throughput := decide (c.throughput ≤ q.throughput)
  successability := decide (c.successability ≤ q.successability)
  reliability := decide (c.reliability ≤ q.reliability)
  compliance := decide (c.compliance ≤ q.compliance)
  bestPractices := decide (c.best_practices ≤ q.best_practices)
  latency := decide (q.latency ≤ c.latency)
  documentation := decide (c.documentation ≤ q.documentation)

/-- Python `sum(qos_checks.values())`: how many of the nine checks passed. -/
def QoSChecks.count (c : QoSChecks) : ℕ :=
  c.responseTime.toNat + c.availability.toNat + c.throughput.toNat +
  c.successability.toNat + c.reliability.toNat + c.compliance.toNat +
  c.bestPractices.toNat + c.latency.toNat + c.documentation.toNat

/-- Source `normalize` (`utils/qos_calculator.py`): clamp `value` into
`[min_val, max_val]` and rescale linearly into `[target_min, target_max]`. -/
def normalize (value min_val max_val target_min target_max : ℚ) : ℚ :=
  if max_val = min_val then target_min
  else
    let v := max min_val (min value max_val)
    let normalized := (v - min_val) / (max_val - min_val)
    target_min + normalized * (target_max - target_min)

/-- Source `normalize_inverse` (`utils/qos_calculator.py`): like `normalize` but
lower input values score higher. -/
def normalize_inverse (value min_val max_val target_min target_max : ℚ) : ℚ :=
  if max_val = min_val then target_max
  else
    let v := max min_val (min value max_val)
    let normalized := 1 - (v - min_val) / (max_val - min_val)
    target_min + normalized * (target_max - target_min)

/-- Source `calculate_utility` (`utils/qos_calculator.py`).  The second argument
(`qos_constraints`) is unused by the source body exactly as here; the checks
dict is the fixed nine-key map produced by `meets_constraints`, so
`total_constraints = 9`. -/
def calculate_utility (qos_achieved : QoS) (qos_constraints : QoS)
    (qos_checks : QoSChecks) : ℚ :=
  let met_constraints : ℚ := qos_checks.count
  let total_constraints : ℚ := 9
  let satisfaction_ratio : ℚ :=
    if 0 < total_constraints then met_constraints / total_constraints else 0
  let quality_score : ℚ :=
    normalize qos_achieved.availability 0 100 0 15 +
    normalize qos_achieved.reliability 0 100 0 15 +
    normalize qos_achieved.successability 0 100 0 15 +
    normalize qos_achieved.throughput 0 1000 0 10 +
    normalize qos_achieved.compliance 0 100 0 10 +
    normalize qos_achieved.best_practices 0 100 0 10 +
    normalize qos_achieved.documentation 0 100 0 5 +
    normalize_inverse qos_achieved.response_time 0 1000 0 10 +
    normalize_inverse qos_achieved.latency 0 1000 0 10
  let conformity_score : ℚ :=
    (if qos_checks.responseTime then (12 : ℚ) else 0) +
    (if qos_checks.availability then (12 : ℚ) else 0) +
    (if qos_checks.throughput then (11 : ℚ) else 0) +
    (if qos_checks.successability then (11 : ℚ) else 0) +
    (if qos_checks.reliability then (12 : ℚ) else 0) +
    (if qos_checks.compliance then (11 : ℚ) else 0) +
    (if qos_checks.bestPractices then (10 : ℚ) else 0) +
    (if qos_checks.latency then (11 : ℚ) else 0) +
    (if qos_checks.documentation then (10 : ℚ) else 0)
  let base_utility := quality_score * 0.4 + conformity_score * 0.6
  let bonus : ℚ :=
    if satisfaction_ratio = 1 then 50
    else if 0.8 ≤ satisfaction_ratio then 25
    else if 0.6 ≤ satisfaction_ratio then 10
    else 0
  let penalty_factor : ℚ :=
    if satisfaction_ratio < 0.5 then 0.5
    else if satisfaction_ratio < 0.7 then 0.7
    else if satisfaction_ratio < 1 then 0.9
    else 1
  let utility := base_utility * penalty_factor + bonus
  max utility 0

/-- Web service (`models/service.py`, class `WebService`): identity,
parameter contract and one QoS vector. -/
structure Service where
  id : String
  inputs : List String
  outputs : List String
  qos : QoS
deriving DecidableEq

/-- Python `min` over a nonempty sequence (the `[]` case never arises at the
call sites, which all guard for nonemptiness). -/
def pyMin : List ℚ → ℚ
  | [] => 0
  | a :: as => as.foldl min a

/-- Python `max(seq, default=d)`. -/
def pyMaxD (d : ℚ) : List ℚ → ℚ
  | [] => d
  | a :: as => as.foldl max a

/-- Optional minimum of a list of rationals (`none` on the empty list). -/
def minQ? : List ℚ → Option ℚ
  | [] => none
  | a :: as => some (as.foldl min a)

/-- Source `aggregate_qos` (`utils/qos_calculator.py`): sequential-chain QoS
aggregation.  Empty list returns `QoS()`; a single service returns its own
QoS unchanged; otherwise times sum, the three probability-like percentages
multiply as fractions and are rescaled to 0-100, and the remaining metrics
take the minimum. -/
def aggregate_qos : List Service → QoS
  | [] => QoS.default
  | [s] => s.qos
  | s₀ :: s₁ :: rest =>
    let l := s₀ :: s₁ :: rest
    { response_time := (l.map fun s => s.qos.response_time).sum
      availability := (l.map fun s => s.qos.availability / 100).prod * 100
      throughput := pyMin (l.map fun s => s.qos.throughput)
      successability := (l.map fun s => s.qos.successability / 100).prod * 100
      reliability := (l.map fun s => s.qos.reliability / 100).prod * 100
      compliance := pyMin (l.map fun s => s.qos.compliance)
      best_practices := pyMin (l.map fun s => s.qos.best_practices)
      latency := (l.map fun s => s.qos.latency).sum
      documentation := pyMin (l.map fun s => s.qos.documentation) }

/-- Composition request (`models/service.py`).  `resultant` is `Optional`:
the constructor initializes it to `None` and the request parser only fills
it when a `Resultant` element is present. -/
structure CompositionRequest where
  id : String
  provided : List String
  resultant : Option String
  qos_constraints : QoS
deriving DecidableEq

/-- Composition result (`models/service.py`).  `states_explored` and
`algorithm_used` are set dynamically by the Python code; here they are
ordinary fields initialized to `0` and `""`. -/
structure CompositionResult where
  services : List Service
  workflow : List String
  utility_value : ℚ
  qos_achieved : QoS
  success : Bool
  explanation : String
  states_explored : ℕ
  algorithm_used : String
deriving DecidableEq

/-- Python `CompositionResult()` fresh object. -/
def CompositionResult.init : CompositionResult :=
  { services := [], workflow := [], utility_value := 0,
    qos_achieved := QoS.default, success := false, explanation := "",
    states_explored := 0, algorithm_used := "" }

/-!
## The composer (`services/classic_composer.py`)

The `ClassicComposer` holds the full service pool and three precomputed
indexes.  `self.service_dict = {s.id: s for s in services}` and
`self._service_input_sets[s.id] = frozenset(s.inputs)` are dict builds where
a later service with the same id overwrites an earlier one, hence the
`reverse.find?` lookups below.
-/

/-- Lookup `self.service_dict[sid]` (last same-id service wins, `none` if absent). -/
def service_dict (services : List Service) (sid : String) : Option Service :=
  services.reverse.find? (fun s => s.id == sid)

/-- Lookup `self._service_input_sets.get(sid, frozenset())`. -/
def input_set_of (services : List Service) (sid : String) : Finset String :=
  match service_dict services sid with
  | some s => s.inputs.toFinset
  | none => ∅

/-- Per-service utility as computed at every expansion site of the three
strategies: `qos_checks = service.qos.meets_constraints(request.qos_constraints)`
followed by `calculate_utility(service.qos, request.qos_constraints, qos_checks)`. -/
def serviceUtility (request : CompositionRequest) (s : Service) : ℚ :=
  calculate_utility s.qos request.qos_constraints
    (s.qos.meets_constraints request.qos_constraints)

/-- Test `request.resultant in params` for a Python set of strings: `None` is
never a member. -/
def optMemF (o : Option String) (params : Finset String) : Bool :=
  match o with
  | some t => decide (t ∈ params)
  | none => false

/-- Test `request.resultant in service.outputs` (a list of strings). -/
def optMemL (o : Option String) (l : List String) : Bool :=
  match o with
  | some t => decide (t ∈ l)
  | none => false

/-!
### Candidate reachability filter (`_get_relevant_services`)

The Python forward pass is a worklist driven by `self._input_index`: a
service is (re-)examined whenever one of its own input parameters newly
becomes reachable, and admitted once `self._service_input_sets[s.id]` is a
subset of the reachable set.  A service whose input list is empty appears in
no `_input_index` bucket and is therefore never admitted.  Since the last
input parameter of a service to become reachable always triggers one more
examination, the loop computes the least fixpoint of "admit any not-yet
admitted service with a nonempty input list whose input set is reachable";
we compute that same fixpoint by whole-pool rounds (each productive round
admits at least one service, so `|services| + 1` rounds reach the fixpoint).
The iteration order of Python's intermediate sets does not affect the final
reachable-parameter and admitted-id sets.
-/

/-- One forward pass over the pool: fold of
"admit `s` if not yet admitted, `s.inputs` nonempty, and its recorded input
set is contained in the reachable parameters; then add its outputs".
State is `(reachable_params, forward_ids)`. -/
def forwardRound (services : List Service) (rf : Finset String × Finset String) :
    Finset String × Finset String :=
  services.foldl
    (fun rf s =>
      if s.id ∉ rf.2 ∧ s.inputs ≠ [] ∧ input_set_of services s.id ⊆ rf.1 then
        (rf.1 ∪ s.outputs.toFinset, insert s.id rf.2)
      else rf)
    rf

/-- Iterate `forwardRound` to its fixpoint. -/
def forwardClosureAux (services : List Service) :
    ℕ → Finset String × Finset String → Finset String × Finset String
  | 0, rf => rf
  | n + 1, rf =>
    let rf' := forwardRound services rf
    if rf' = rf then rf else forwardClosureAux services n rf'

/-- Forward reachability closure from the provided parameters: returns
`(reachable_params, forward_ids)`. -/
def forwardClosure (services : List Service) (provided : Finset String) :
    Finset String × Finset String :=
  forwardClosureAux services (services.length + 1) (provided, ∅)

/-- One backward pass: a not-yet admitted service producing any needed
parameter is admitted and its inputs outside `provided` become needed.
State is `(needed, backward_ids)`. -/
def backwardRound (services : List Service) (provided : Finset String)
    (nb : Finset String × Finset String) : Finset String × Finset String :=
  services.foldl
    (fun nb s =>
      if s.id ∉ nb.2 ∧ s.outputs.any (fun o => decide (o ∈ nb.1)) then
        (nb.1 ∪ (s.inputs.toFinset \ provided), insert s.id nb.2)
      else nb)
    nb

/-- Iterate `backwardRound` to its fixpoint. -/
def backwardClosureAux (services : List Service) (provided : Finset String) :
    ℕ → Finset String × Finset String → Finset String × Finset String
  | 0, nb => nb
  | n + 1, nb =>
    let nb' := backwardRound services provided nb
    if nb' = nb then nb else backwardClosureAux services provided n nb'

/-- Backward usefulness closure from the target: `(needed, backward_ids)`. -/
def backwardClosure (services : List Service) (provided : Finset String)
    (target : String) : Finset String × Finset String :=
  backwardClosureAux services provided (services.length + 1) ({target}, ∅)

/-- Source `_get_relevant_services`.  When `resultant` is `None`, the membership
test `request.resultant not in reachable_params` is always true (the
reachable set holds only strings), so the empty list is returned.  Python
returns the relevant services in the (unspecified) iteration order of the
`relevant_ids` set; we fix the order of first appearance in the pool, which
no claim depends on. -/
def get_relevant_services (services : List Service)
    (request : CompositionRequest) : List Service :=
  let provided := request.provided.toFinset
  let fc := forwardClosure services provided
  match request.resultant with
  | none => []
  | some target =>
    if target ∉ fc.1 then []
    else
      let bc := backwardClosure services provided target
      let inter := fc.2 ∩ bc.2
      let relevant_ids := if inter.card < 3 then fc.2 ∪ bc.2 else inter
      ((services.map Service.id).dedup.filter
          (fun sid => decide (sid ∈ relevant_ids))).filterMap
        (service_dict services)

/-!
### Shared search-state machinery

`heapq` entries are `(priority, counter, state)` tuples popped in ascending
lexicographic order; the strictly increasing counter means the state itself
is never compared.  We model the heap as a plain list with a deterministic
minimum extraction on the `(priority, counter)` pair.  The best-utility map
keyed by frozensets of parameters is an association list where insertion
shadows older entries.
-/

/-- Generic accumulator shared by the two priority-queue strategies.
`bestUtil = none` models `best_solution_utility = -float('inf')`. -/
structure SearchAcc (σ : Type) where
  queue : List (ℚ × ℕ × σ)
  best : List (Finset String × ℚ)
  counter : ℕ
  bestSol : Option (List String)
  bestUtil : Option ℚ
  iterations : ℕ

/-- Strict lexicographic comparison on `(priority, counter)`. -/
def qLess {σ : Type} (a b : ℚ × ℕ × σ) : Bool :=
  decide (a.1 < b.1 ∨ (a.1 = b.1 ∧ a.2.1 < b.2.1))

/-- Python `heapq.heappop`: extract the entry with the least `(priority, counter)`
pair (counters are unique, so this is the unique heap minimum). -/
def popMin {σ : Type} : List (ℚ × ℕ × σ) → Option ((ℚ × ℕ × σ) × List (ℚ × ℕ × σ))
  | [] => none
  | e :: es =>
    match popMin es with
    | none => some (e, [])
    | some (m, rest) => if qLess m e then some (m, e :: rest) else some (e, es)

/-- Dict lookup in the best-utility association list. -/
def lookupBU (m : List (Finset String × ℚ)) (k : Finset String) : Option ℚ :=
  (m.find? (fun e => decide (e.1 = k))).map (fun e => e.2)

/-- Staleness test `params_key in best_utilities and best_utilities[params_key] > u`. -/
def staleB (m : List (Finset String × ℚ)) (k : Finset String) (u : ℚ) : Bool :=
  match lookupBU m k with
  | some b => decide (u < b)
  | none => false

/-- Comparison `u > best_solution_utility` where `none` is `-float('inf')`. -/
def betterThan (u : ℚ) : Option ℚ → Bool
  | none => true
  | some b => decide (b < u)

/-- Candidate services applicable from a state: not already on the path and
with their recorded input set contained in the available parameters. -/
def applicableServices (services : List Service) (pool : List Service)
    (path : List String) (params : Finset String) : List Service :=
  pool.filter (fun s =>
    decide (s.id ∉ path) && decide (input_set_of services s.id ⊆ params))

/-!
### Dijkstra strategy (`_dijkstra_compose`)
-/

/-- Search state of the Dijkstra strategy:
`(current_utility, path, available_params)`. -/
structure SearchState where
  utility : ℚ
  path : List String
  params : Finset String
deriving DecidableEq

/-- Engine-wide iteration ceiling (`max_iterations = 500000`). -/
def max_iterations : ℕ := 500000

/-- Body of the `for service in applicable` loop of `_dijkstra_compose`:
compute the service's utility, extend the path and the parameter set, take
the bottleneck utility, and push the successor unless a recorded state with
the same parameter set already achieved equal or better utility. -/
def expandDijStep (request : CompositionRequest) (st : SearchState)
    (acc : SearchAcc SearchState) (s : Service) : SearchAcc SearchState :=
  let service_utility := serviceUtility request s
  let new_path := st.path ++ [s.id]
  let new_params := st.params ∪ s.outputs.toFinset
  let new_utility :=
    if st.path = [] then service_utility else min st.utility service_utility
  match lookupBU acc.best new_params with
  | some b =>
    if new_utility ≤ b then acc
    else
      { acc with
        best := (new_params, new_utility) :: acc.best
        counter := acc.counter + 1
        queue := acc.queue ++
          [(-new_utility, acc.counter + 1, ⟨new_utility, new_path, new_params⟩)] }
  | none =>
    { acc with
      best := (new_params, new_utility) :: acc.best
      counter := acc.counter + 1
      queue := acc.queue ++
        [(-new_utility, acc.counter + 1, ⟨new_utility, new_path, new_params⟩)] }

/-- Expansion of one popped state over every applicable service. -/
def expandDij (services : List Service) (request : CompositionRequest)
    (pool : List Service) (st : SearchState) (acc : SearchAcc SearchState) :
    SearchAcc SearchState :=
  (applicableServices services pool st.path st.params).foldl
    (expandDijStep request st) acc

/-- Record a goal state as candidate best solution
(`if current_utility > best_solution_utility`). -/
def recordGoal {σ : Type} (acc : SearchAcc σ) (u : ℚ) (p : List String) :
    SearchAcc σ :=
  if betterThan u acc.bestUtil then
    { acc with bestSol := some p, bestUtil := some u }
  else acc

/-- Main Dijkstra loop.  Fuel is the remaining iteration budget
(`iterations < max_iterations`); `timeLimit` abstracts the wall-clock
deadline as the number of iterations it still allows. -/
def dijkstraLoop (services : List Service) (request : CompositionRequest)
    (pool : List Service) (timeLimit : ℕ) :
    ℕ → SearchAcc SearchState → SearchAcc SearchState
  | 0, acc => acc
  | fuel + 1, acc =>
    if acc.queue = [] then acc
    else if ¬ acc.iterations < timeLimit then acc
    else
      match popMin acc.queue with
      | none => acc
      | some (e, rest) =>
        let st := e.2.2
        let acc1 := { acc with queue := rest, iterations := acc.iterations + 1 }
        if staleB acc1.best st.params st.utility then
          dijkstraLoop services request pool timeLimit fuel acc1
        else if optMemF request.resultant st.params then
          dijkstraLoop services request pool timeLimit fuel
            (recordGoal acc1 st.utility st.path)
        else
          dijkstraLoop services request pool timeLimit fuel
            (expandDij services request pool st acc1)

/-- Source `_dijkstra_compose`.  The initial state is
`(0, [], set(request.provided))` with priority 0 and counter 0, and
`best_utilities[frozenset(request.provided)] = 0`.  After the loop, Python's
`if best_solution:` treats both `None` and the empty path as failure. -/
def dijkstra_compose (services : List Service) (request : CompositionRequest)
    (pool : List Service) (timeLimit : ℕ) : CompositionResult :=
  let provided := request.provided.toFinset
  let init : SearchAcc SearchState :=
    { queue := [(0, 0, ⟨0, [], provided⟩)], best := [(provided, 0)],
      counter := 0, bestSol := none, bestUtil := none, iterations := 0 }
  let final := dijkstraLoop services request pool timeLimit max_iterations init
  match final.bestSol with
  | some (sid :: rest) =>
    let p := sid :: rest
    let svcs := p.filterMap (service_dict services)
    { services := svcs, workflow := p,
      utility_value := final.bestUtil.getD 0,
      qos_achieved := aggregate_qos svcs, success := true,
      explanation := "", states_explored := final.iterations,
      algorithm_used := "" }
  | _ =>
    { CompositionResult.init with
      explanation := "No composition found after " ++
        toString final.iterations ++ " iterations" }

/-!
### A* strategy (`_astar_compose`)
-/

/-- Search state of the A* strategy: `(g_score, h_score, path, params)`. -/
structure AState where
  g : ℚ
  h : ℚ
  path : List String
  params : Finset String
deriving DecidableEq

/-- Python `_max_rt = max((s.qos.response_time for s in services_pool), default=1)`. -/
def max_rt (pool : List Service) : ℚ :=
  pyMaxD 1 (pool.map fun s => s.qos.response_time)

/-- Source `calculate_heuristic(service, available_params)` as defined inside
`_astar_compose`. -/
def calculate_heuristic (request : CompositionRequest) (maxRt : ℚ)
    (s : Service) (available_params : Finset String) : ℚ :=
  let goal_bonus : ℚ := if optMemL request.resultant s.outputs then 1 else 0
  let new_params := s.outputs.toFinset \ available_params
  let novelty : ℚ := (new_params.card : ℚ) / ((max s.outputs.length 1 : ℕ) : ℚ)
  let norm_rt : ℚ := if 0 < maxRt then 1 - s.qos.response_time / maxRt else 0
  goal_bonus * 0.5 + s.qos.reliability / 100 * 0.2 +
    s.qos.availability / 100 * 0.2 + norm_rt * 0.05 + novelty * 0.05

/-- Body of the `for service in applicable` loop of `_astar_compose`.  Note
the source computes `new_h = calculate_heuristic(service, new_params)` with
`new_params = available_params | set(service.outputs)`, i.e. the parameter
set *after* applying the service. -/
def expandAStep (request : CompositionRequest) (maxRt : ℚ) (st : AState)
    (acc : SearchAcc AState) (s : Service) : SearchAcc AState :=
  let service_utility := serviceUtility request s
  let new_path := st.path ++ [s.id]
  let new_params := st.params ∪ s.outputs.toFinset
  let new_g := if st.path = [] then service_utility else min st.g service_utility
  let new_h := calculate_heuristic request maxRt s new_params
  let new_f := new_g + new_h
  match lookupBU acc.best new_params with
  | some b =>
    if new_g ≤ b then acc
    else
      { acc with
        best := (new_params, new_g) :: acc.best
        counter := acc.counter + 1
        queue := acc.queue ++
          [(-new_f, acc.counter + 1, ⟨new_g, new_h, new_path, new_params⟩)] }
  | none =>
    { acc with
      best := (new_params, new_g) :: acc.best
      counter := acc.counter + 1
      queue := acc.queue ++
        [(-new_f, acc.counter + 1, ⟨new_g, new_h, new_path, new_params⟩)] }

/-- Expansion of one popped A* state over every applicable service. -/
def expandA (services : List Service) (request : CompositionRequest)
    (maxRt : ℚ) (pool : List Service) (st : AState) (acc : SearchAcc AState) :
    SearchAcc AState :=
  (applicableServices services pool st.path st.params).foldl
    (expandAStep request maxRt st) acc

/-- Main A* loop; staleness and goal recording use the `g` score. -/
def astarLoop (services : List Service) (request : CompositionRequest)
    (maxRt : ℚ) (pool : List Service) (timeLimit : ℕ) :
    ℕ → SearchAcc AState → SearchAcc AState
  | 0, acc => acc
  | fuel + 1, acc =>
    if acc.queue = [] then acc
    else if ¬ acc.iterations < timeLimit then acc
    else
      match popMin acc.queue with
      | none => acc
      | some (e, rest) =>
        let st := e.2.2
        let acc1 := { acc with queue := rest, iterations := acc.iterations + 1 }
        if staleB acc1.best st.params st.g then
          astarLoop services request maxRt pool timeLimit fuel acc1
        else if optMemF request.resultant st.params then
          astarLoop services request maxRt pool timeLimit fuel
            (recordGoal acc1 st.g st.path)
        else
          astarLoop services request maxRt pool timeLimit fuel
            (expandA services request maxRt pool st acc1)

/-- Source `_astar_compose`. -/
def astar_compose (services : List Service) (request : CompositionRequest)
    (pool : List Service) (timeLimit : ℕ) : CompositionResult :=
  let provided := request.provided.toFinset
  let maxRt := max_rt pool
  let init : SearchAcc AState :=
    { queue := [(0, 0, ⟨0, 0, [], provided⟩)], best := [(provided, 0)],
      counter := 0, bestSol := none, bestUtil := none, iterations := 0 }
  let final := astarLoop services request maxRt pool timeLimit max_iterations init
  match final.bestSol with
  | some (sid :: rest) =>
    let p := sid :: rest
    let svcs := p.filterMap (service_dict services)
    { services := svcs, workflow := p,
      utility_value := final.bestUtil.getD 0,
      qos_achieved := aggregate_qos svcs, success := true,
      explanation := "", states_explored := final.iterations,
      algorithm_used := "" }
  | _ =>
    { CompositionResult.init with
      explanation := "No A* composition found after " ++
        toString final.iterations ++ " iterations" }

/-!
### Greedy strategy (`_greedy_compose`)
-/

/-- Greedy candidate scoring and choice: each applicable service is scored
by its utility plus a bonus of 100 when it directly produces the target;
Python sorts descending by score with a stable sort and takes the head,
which is the first applicable service attaining the maximal score. -/
def greedyPick (request : CompositionRequest) (applicable : List Service) :
    Option Service :=
  match applicable.map
      (fun s => (s, serviceUtility request s +
        (if optMemL request.resultant s.outputs then (100 : ℚ) else 0))) with
  | [] => none
  | c :: cs => some (cs.foldl (fun b x => if b.2 < x.2 then x else b) c).1

/-- Main greedy loop (`while resultant not in available and steps < 50`).
Returns `(available_params, path, utilities, steps)`. -/
def greedyLoop (services : List Service) (request : CompositionRequest)
    (pool : List Service) :
    ℕ → Finset String → List String → List ℚ → ℕ →
    Finset String × List String × List ℚ × ℕ
  | 0, avail, path, utils, steps => (avail, path, utils, steps)
  | fuel + 1, avail, path, utils, steps =>
    if optMemF request.resultant avail then (avail, path, utils, steps)
    else
      match greedyPick request (applicableServices services pool path avail) with
      | none => (avail, path, utils, steps + 1)
      | some best =>
        greedyLoop services request pool fuel (avail ∪ best.outputs.toFinset)
          (path ++ [best.id]) (utils ++ [serviceUtility request best])
          (steps + 1)

/-- Source `_greedy_compose`.  `max_steps = 50`. -/
def greedy_compose (services : List Service) (request : CompositionRequest)
    (pool : List Service) : CompositionResult :=
  let r := greedyLoop services request pool 50 request.provided.toFinset [] [] 0
  if optMemF request.resultant r.1 then
    let svcs := r.2.1.filterMap (service_dict services)
    { services := svcs, workflow := r.2.1,
      utility_value := match r.2.2.1 with | [] => 0 | a :: as => as.foldl min a,
      qos_achieved := aggregate_qos svcs, success := true,
      explanation := "", states_explored := r.2.2.2,
      algorithm_used := "" }
  else
    { CompositionResult.init with
      explanation := "Greedy did not find a composition after " ++
        toString r.2.2.2 ++ " steps" }

/-- Source `ClassicComposer.compose(request, algorithm)`: pre-filter to the
relevant services, fail fast when none remain, otherwise dispatch on the
strategy name (any name other than `"dijkstra"` and `"astar"` selects the
greedy strategy) and overwrite `success` with `len(result.services) > 0`. -/
def compose (services : List Service) (request : CompositionRequest)
    (algorithm : String) (timeLimit : ℕ) : CompositionResult :=
  let relevant := get_relevant_services services request
  if relevant = [] then
    { CompositionResult.init with
      explanation := "No reachable composition path exists."
      algorithm_used := algorithm }
  else
    let r :=
      if algorithm = "dijkstra" then
        dijkstra_compose services request relevant timeLimit
      else if algorithm = "astar" then
        astar_compose services request relevant timeLimit
      else greedy_compose services request relevant
    { r with success := decide (0 < r.services.length),
             algorithm_used := algorithm }

/-!
## Spec-side definitions

These two definitions follow the wording of the specification (not the
source), to be compared with the source-derived definitions above.
-/

/-- The utility formula exactly as the specification states it:
`satisfactionRatio = satisfiedCount / 9`; `qualityScore` the weighted
normalized sum over the nine dimensions (time-like dimensions normalized
inversely); `conformityScore` the weighted sum over only the satisfied
constraints; result `(qualityScore*0.4 + conformityScore*0.6) *
penaltyFactor + bonus`, floored at 0, with the stated bonus and penalty
tiers. -/
def specUtility (q : QoS) (checks : QoSChecks) : ℚ :=
  let satisfiedCount : ℚ := checks.count
  let satisfactionRatio : ℚ := satisfiedCount / 9
  let qualityScore : ℚ :=
    normalize q.availability 0 100 0 15 +
    normalize q.reliability 0 100 0 15 +
    normalize q.successability 0 100 0 15 +
    normalize q.throughput 0 1000 0 10 +
    normalize q.compliance 0 100 0 10 +
    normalize q.best_practices 0 100 0 10 +
    normalize q.documentation 0 100 0 5 +
    normalize_inverse q.response_time 0 1000 0 10 +
    normalize_inverse q.latency 0 1000 0 10
  let conformityScore : ℚ :=
    (if checks.responseTime then (12 : ℚ) else 0) +
    (if checks.availability then (12 : ℚ) else 0) +
    (if checks.throughput then (11 : ℚ) else 0) +
    (if checks.successability then (11 : ℚ) else 0) +
    (if checks.reliability then (12 : ℚ) else 0) +
    (if checks.compliance then (11 : ℚ) else 0) +
    (if checks.bestPractices then (10 : ℚ) else 0) +
    (if checks.latency then (11 : ℚ) else 0) +
    (if checks.documentation then (10 : ℚ) else 0)
  let bonus : ℚ :=
    if satisfactionRatio = 1 then 50
    else if 0.8 ≤ satisfactionRatio then 25
    else if 0.6 ≤ satisfactionRatio then 10
    else 0
  let penaltyFactor : ℚ :=
    if satisfactionRatio < 0.5 then 0.5
    else if satisfactionRatio < 0.7 then 0.7
    else if satisfactionRatio < 1 then 0.9
    else 1
  max ((qualityScore * 0.4 + conformityScore * 0.6) * penaltyFactor + bonus) 0

/-- The A* successor heuristic as claim C7 states it: novelty is the
fraction of the service's outputs that are new relative to the parameters
available *before* the service is applied. -/
def claimedHeuristic (request : CompositionRequest) (maxRt : ℚ) (s : Service)
    (availableBefore : Finset String) : ℚ :=
  let goal_bonus : ℚ := if optMemL request.resultant s.outputs then 1 else 0
  let new_params := s.outputs.toFinset \ availableBefore
  let novelty : ℚ := (new_params.card : ℚ) / ((max s.outputs.length 1 : ℕ) : ℚ)
  let norm_rt : ℚ := if 0 < maxRt then 1 - s.qos.response_time / maxRt else 0
  goal_bonus * 0.5 + s.qos.reliability / 100 * 0.2 +
    s.qos.availability / 100 * 0.2 + norm_rt * 0.05 + novelty * 0.05

/-!
## Invariant vocabulary and concrete fixtures
-/

/-- Utilities of the services a path resolves to through `service_dict`. -/
def resolvedUtils (services : List Service) (request : CompositionRequest)
    (p : List String) : List ℚ :=
  (p.filterMap (service_dict services)).map (serviceUtility request)

/-- A well-formed search path with its bottleneck utility: no repeated
service id, and the utility is the minimum of the per-service utilities
along the path (whenever the path is nonempty). -/
def GoodPath (services : List Service) (request : CompositionRequest)
    (p : List String) (u : ℚ) : Prop :=
  p.Nodup ∧ (p ≠ [] → minQ? (resolvedUtils services request p) = some u)

/-- Loop invariant of the Dijkstra strategy: every queued state is a good
path carrying its bottleneck utility, and any recorded best solution is a
good path whose bottleneck utility is the recorded best utility. -/
def DijInv (services : List Service) (request : CompositionRequest)
    (acc : SearchAcc SearchState) : Prop :=
  (∀ e ∈ acc.queue, GoodPath services request e.2.2.path e.2.2.utility) ∧
  (∀ p, acc.bestSol = some p →
    p.Nodup ∧ (p ≠ [] → minQ? (resolvedUtils services request p) = acc.bestUtil))

/-- Loop invariant of the A* strategy (on the `g` score). -/
def AInv (services : List Service) (request : CompositionRequest)
    (acc : SearchAcc AState) : Prop :=
  (∀ e ∈ acc.queue, GoodPath services request e.2.2.path e.2.2.g) ∧
  (∀ p, acc.bestSol = some p →
    p.Nodup ∧ (p ≠ [] → minQ? (resolvedUtils services request p) = acc.bestUtil))

/-- The pool handed to a strategy consists of services that `service_dict`
resolves to themselves (true of the relevant pool built by
`_get_relevant_services`, whose elements are `service_dict` values). -/
def poolOk (services pool : List Service) : Prop :=
  ∀ s ∈ pool, service_dict services s.id = some s

/-- Pointwise order on optional utilities (`none` below everything). -/
def optionLe : Option ℚ → Option ℚ → Prop
  | none, _ => True
  | some a, b => ∃ y, b = some y ∧ a ≤ y

/-- Concrete fixtures used by witnesses and counterexamples. -/
def qosW : QoS := ⟨50, 90, 100, 90, 80, 80, 80, 40, 90⟩

/-- A weak QoS vector. -/
def qosW2 : QoS := ⟨900, 10, 5, 20, 15, 10, 10, 800, 5⟩

/-- Service `"S1"` turning `x` into `y`. -/
def svcW1 : Service := ⟨"S1", ["x"], ["y"], qosW⟩

/-- Service `"S2"` turning `y` into `z`. -/
def svcW2 : Service := ⟨"S2", ["y"], ["z"], qosW2⟩

/-- Service `"S3"` turning `a` into `b`. -/
def svcWab : Service := ⟨"S3", ["a"], ["b"], qosW⟩

/-- Request: from `x` produce `y`, no constraints. -/
def reqW : CompositionRequest := ⟨"R1", ["x"], some "y", QoS.default⟩

/-- Request: from `x` produce `z`, no constraints. -/
def reqWz : CompositionRequest := ⟨"R2", ["x"], some "z", QoS.default⟩

/-- Request whose resultant is missing (`None`). -/
def reqWmiss : CompositionRequest := ⟨"R3", ["x"], none, QoS.default⟩

/-- Request whose resultant `x` is already provided. -/
def reqWx : CompositionRequest := ⟨"R5", ["x"], some "x", QoS.default⟩

/-- A concrete Dijkstra search state (initial state over `x`). -/
def stW : SearchState := ⟨0, [], {"x"}⟩

/-- A concrete Dijkstra accumulator whose best-utility map already records
utility 1000 for the parameter set `{x, y}`. -/
def accW : SearchAcc SearchState :=
  ⟨[], [({"x", "y"}, 1000)], 0, none, none, 0⟩

/-- A concrete A* search state (initial state over `x`). -/
def stWA : AState := ⟨0, 0, [], {"x"}⟩

/-- A concrete A* accumulator recording `g = 1000` for `{x, y}`. -/
def accWA : SearchAcc AState :=
  ⟨[], [({"x", "y"}, 1000)], 0, none, none, 0⟩

/-- An empty A* accumulator. -/
def accWA0 : SearchAcc AState := ⟨[], [], 0, none, none, 0⟩

/-!
## Theorems
-/

/-- Claim C1: for every QoS vector, every constraint vector and every
nine-entry constraint-check map, `calculate_utility` returns exactly the
formula the specification gives: with `satisfactionRatio = satisfiedCount /
9`, `qualityScore` the weighted normalized sum over the nine dimensions
(time-like dimensions inverted), and `conformityScore` the weighted sum over
only the satisfied constraints, the result is `(qualityScore*0.4 +
conformityScore*0.6) * penaltyFactor + bonus` with the stated satisfaction
tiers, floored at 0. -/
theorem calculate_utility_matches_spec (q constraints : QoS)
    (checks : QoSChecks) :
    calculate_utility q constraints checks = specUtility q checks := by
  unfold calculate_utility specUtility
  norm_num

/-- Generic fold invariant: a property preserved by every step holds of the
fold result. -/
theorem foldl_inv {α β : Type _} {P : β → Prop} {Q : α → Prop} (f : β → α → β)
    (l : List α) (b : β) (hb : P b) (hl : ∀ a ∈ l, Q a)
    (hstep : ∀ b a, P b → Q a → P (f b a)) : P (l.foldl f b) := by
  induction l generalizing b with
  | nil => exact hb
  | cons a as ih =>
    exact ih (f b a) (hstep b a hb (hl a (by simp)))
      (fun x hx => hl x (by simp [hx]))

/-- Value of `minQ?` on a singleton. -/
theorem minQ?_singleton (a : ℚ) : minQ? [a] = some a := rfl

/-- Appending one element to a list with a known minimum. -/
theorem minQ?_append_singleton (l : List ℚ) (a u : ℚ)
    (h : minQ? l = some u) : minQ? (l ++ [a]) = some (min u a) := by
  cases l with
  | nil => simp [minQ?] at h
  | cons b bs =>
    simp only [minQ?, Option.some.injEq] at h
    subst h
    simp [minQ?, List.foldl_append]

/-- Value of `minQ?` on a nonempty list is `some` of its left fold. -/
theorem minQ?_cons (a : ℚ) (l : List ℚ) :
    minQ? (a :: l) = some (l.foldl min a) := rfl

/-- A `service_dict` hit resolves to a service carrying the looked-up id. -/
theorem service_dict_id (services : List Service) (sid : String) (s : Service)
    (h : service_dict services sid = some s) :
    s.id = sid ∧ service_dict services s.id = some s := by
  have hfind := List.find?_some h
  have hid : s.id = sid := by simpa using hfind
  exact ⟨hid, by rw [hid]; exact h⟩

/-- Every service returned by the relevance pre-filter is a `service_dict`
value for its own id. -/
theorem relevant_poolOk (services : List Service)
    (request : CompositionRequest) :
    poolOk services (get_relevant_services services request) := by
  intro s hs
  unfold get_relevant_services at hs
  cases hres : request.resultant with
  | none => rw [hres] at hs; simp at hs
  | some target =>
    rw [hres] at hs
    dsimp only at hs
    by_cases htgt :
        target ∉ (forwardClosure services request.provided.toFinset).1
    · rw [if_pos htgt] at hs; simp at hs
    · rw [if_neg htgt] at hs
      obtain ⟨sid, _, hdict⟩ := List.mem_filterMap.mp hs
      exact (service_dict_id services sid s hdict).2

/-- Membership facts delivered by `applicableServices`. -/
theorem applicable_facts (services pool : List Service) (path : List String)
    (params : Finset String) (s : Service)
    (hs : s ∈ applicableServices services pool path params) :
    s ∈ pool ∧ s.id ∉ path := by
  unfold applicableServices at hs
  rw [List.mem_filter] at hs
  refine ⟨hs.1, ?_⟩
  have := hs.2
  simp only [Bool.and_eq_true, decide_eq_true_eq] at this
  exact this.1

/-- Function `popMin` returns an element of the queue, and the remainder is drawn
from the queue. -/
theorem popMin_mem {σ : Type} :
    ∀ (q : List (ℚ × ℕ × σ)) (e : ℚ × ℕ × σ) (rest : List (ℚ × ℕ × σ)),
      popMin q = some (e, rest) → e ∈ q ∧ ∀ x ∈ rest, x ∈ q := by
  intro q
  induction q with
  | nil => intro e rest h; simp [popMin] at h
  | cons a as ih =>
    intro e rest h
    simp only [popMin] at h
    cases hpm : popMin as with
    | none =>
      rw [hpm] at h
      rw [Option.some.injEq, Prod.mk.injEq] at h
      obtain ⟨he, hr⟩ := h
      subst he; subst hr
      exact ⟨by simp, by simp⟩
    | some pr =>
      obtain ⟨m, r⟩ := pr
      rw [hpm] at h
      dsimp only at h
      obtain ⟨hm, hrsub⟩ := ih m r hpm
      by_cases hq : qLess m a
      · rw [if_pos hq] at h
        rw [Option.some.injEq, Prod.mk.injEq] at h
        obtain ⟨he, hr⟩ := h
        subst he; subst hr
        refine ⟨List.mem_cons_of_mem _ hm, ?_⟩
        intro x hx
        rcases List.mem_cons.mp hx with h1 | h2
        · subst h1; exact List.mem_cons_self _ _
        · exact List.mem_cons_of_mem _ (hrsub x h2)
      · rw [if_neg hq] at h
        rw [Option.some.injEq, Prod.mk.injEq] at h
        obtain ⟨he, hr⟩ := h
        subst he; subst hr
        exact ⟨List.mem_cons_self _ _, fun x hx => List.mem_cons_of_mem _ hx⟩

/-- Claim C3: `aggregate_qos` on a one-element list returns that service's QoS
vector unchanged; on a list of two or more services the response time and
latency of the aggregate are the sums over the chain, availability,
reliability and successability are the products of the per-service values
taken as fractions of 100 and rescaled back to 0-100, and throughput,
compliance, best-practices and documentation are the minima across the
chain. -/
theorem aggregate_qos_round_trip :
    (∀ s : Service, aggregate_qos [s] = s.qos) ∧
    (∀ l : List Service, 2 ≤ l.length →
      (aggregate_qos l).response_time = (l.map fun s => s.qos.response_time).sum ∧
      (aggregate_qos l).latency = (l.map fun s => s.qos.latency).sum ∧
      (aggregate_qos l).availability =
        (l.map fun s => s.qos.availability / 100).prod * 100 ∧
      (aggregate_qos l).reliability =
        (l.map fun s => s.qos.reliability / 100).prod * 100 ∧
      (aggregate_qos l).successability =
        (l.map fun s => s.qos.successability / 100).prod * 100 ∧
      minQ? (l.map fun s => s.qos.throughput) = some (aggregate_qos l).throughput ∧
      minQ? (l.map fun s => s.qos.compliance) = some (aggregate_qos l).compliance ∧
      minQ? (l.map fun s => s.qos.best_practices) =
        some (aggregate_qos l).best_practices ∧
      minQ? (l.map fun s => s.qos.documentation) =
        some (aggregate_qos l).documentation) := by
  constructor
  · intro s; rfl
  · intro l hl
    match l with
    | [] => simp at hl
    | [s] => simp at hl
    | s₀ :: s₁ :: rest => exact ⟨rfl, rfl, rfl, rfl, rfl, rfl, rfl, rfl, rfl⟩

/-- Witness for C3's conditional part at a concrete two-service chain. -/
theorem aggregate_qos_round_trip_witness :
    2 ≤ ([svcW1, svcW2] : List Service).length ∧
    (aggregate_qos [svcW1, svcW2]).response_time =
      (([svcW1, svcW2] : List Service).map fun s => s.qos.response_time).sum :=
  ⟨by decide, (aggregate_qos_round_trip.2 [svcW1, svcW2] (by decide)).1⟩

/-- Claim C5, counterexample: a request whose resultant is missing (`None`)
produces *exactly the same* `CompositionResult` as a well-formed request
whose goal is unreachable (the generic no-solution outcome), so a missing
resultant is not rejected as an invalid request distinct from the
no-solution outcome. -/
theorem missing_resultant_counterexample :
    compose [svcW1] reqWmiss "dijkstra" max_iterations =
      compose [svcW1] reqWz "dijkstra" max_iterations := by decide

/-- Claim C5 (amended): a request with a missing resultant never starts a
search — `compose` returns a failure immediately for every strategy — but it
is not rejected as a distinct invalid request: the result is the generic
no-solution failure (`"No reachable composition path exists."`, success
false, empty workflow, zero states explored), identical to the unreachable
goal outcome.  (Requests without a resultant are instead dropped at parse
time by the request parser, outside `compose`.) -/
theorem missing_resultant_fail_fast (services : List Service)
    (request : CompositionRequest) (algorithm : String) (timeLimit : ℕ)
    (h : request.resultant = none) :
    compose services request algorithm timeLimit =
      { CompositionResult.init with
        explanation := "No reachable composition path exists."
        algorithm_used := algorithm } := by
  have hrel : get_relevant_services services request = [] := by
    unfold get_relevant_services
    rw [h]
  unfold compose
  simp [hrel]

/-- Witness for the amended C5 at a concrete missing-resultant request. -/
theorem missing_resultant_fail_fast_witness :
    reqWmiss.resultant = none ∧
    compose [svcW1] reqWmiss "greedy" max_iterations =
      { CompositionResult.init with
        explanation := "No reachable composition path exists."
        algorithm_used := "greedy" } :=
  ⟨rfl, missing_resultant_fail_fast [svcW1] reqWmiss "greedy" max_iterations rfl⟩

/-- Claim C6, counterexample: for the pool `{S3 : a → b}` and the request
`x → z`, the target `z` is not forward-reachable; `compose` does return
immediately with `success = false` and zero states explored, but its
explanation is the fixed string `"No reachable composition path exists."`,
which does not name (contain) the unreachable target `z`. -/
theorem unreachable_explanation_counterexample :
    (compose [svcWab] reqWz "dijkstra" max_iterations).success = false ∧
    (compose [svcWab] reqWz "dijkstra" max_iterations).states_explored = 0 ∧
    ¬ ("z".toList <:+:
        (compose [svcWab] reqWz "dijkstra" max_iterations).explanation.toList) := by
  decide

/-- Claim C6 (amended): when the resultant is not contained in the forward
reachability closure computed from the provided parameters, `compose`
returns immediately for every strategy with `success = false`, zero states
explored and the fixed explanation `"No reachable composition path
exists."` (which does not name the target); no search loop runs. -/
theorem unreachable_goal_fail_fast (services : List Service)
    (request : CompositionRequest) (algorithm : String) (timeLimit : ℕ)
    (target : String) (hres : request.resultant = some target)
    (hun : target ∉ (forwardClosure services request.provided.toFinset).1) :
    compose services request algorithm timeLimit =
      { CompositionResult.init with
        explanation := "No reachable composition path exists."
        algorithm_used := algorithm } := by
  have hrel : get_relevant_services services request = [] := by
    unfold get_relevant_services
    rw [hres]
    dsimp only
    rw [if_pos hun]
  unfold compose
  simp [hrel]

/-- Witness for the amended C6 at a concrete unreachable-goal request. -/
theorem unreachable_goal_fail_fast_witness :
    reqWz.resultant = some "z" ∧
    "z" ∉ (forwardClosure [svcWab] reqWz.provided.toFinset).1 ∧
    compose [svcWab] reqWz "astar" max_iterations =
      { CompositionResult.init with
        explanation := "No reachable composition path exists."
        algorithm_used := "astar" } :=
  ⟨rfl, by decide,
    unreachable_goal_fail_fast [svcWab] reqWz "astar" max_iterations "z" rfl
      (by decide)⟩

/-- Claim C7, counterexample: expanding service `S1` from the initial A* state
over `{x}` pushes a successor whose attached heuristic is `173/200 = 0.865`,
carrying *no* novelty bonus although `S1` contributes the genuinely new
parameter `y`; the claimed formula (novelty measured against the parameters
available before the service is applied) gives `183/200 = 0.915` instead. -/
theorem astar_heuristic_counterexample :
    ((expandAStep reqW 100 stWA accWA0 svcW1).queue.map fun e => e.2.2.h) =
      [173 / 200] ∧
    claimedHeuristic reqW 100 svcW1 stWA.params = 183 / 200 ∧
    (svcW1.outputs.toFinset \ stWA.params) ≠ ∅ ∧
    (173 / 200 : ℚ) ≠ 183 / 200 := by
  refine ⟨?_, ?_, by decide, by with_unfolding_all decide⟩
  · with_unfolding_all rfl
  · with_unfolding_all rfl

/-- Claim C7 (amended): the heuristic attached to each successor state equals
0.5 for a service directly producing the target (else 0), plus 0.2 times
reliability/100, plus 0.2 times availability/100, plus 0.05 times the
normalized inverse response time — and nothing else: because the source
passes `calculate_heuristic` the *post-application* parameter set
(`new_params = available_params | set(service.outputs)`), the novelty term
is always zero, so no strictly positive novelty bonus is ever attached.
(The queue is ordered by `f = g + h` descending as claimed: the pushed
priority is `-(new_g + new_h)`.) -/
theorem astar_heuristic_no_novelty (request : CompositionRequest)
    (maxRt : ℚ) (s : Service) (params : Finset String) :
    calculate_heuristic request maxRt s (params ∪ s.outputs.toFinset) =
      (if optMemL request.resultant s.outputs then (1 : ℚ) else 0) * 0.5 +
      s.qos.reliability / 100 * 0.2 + s.qos.availability / 100 * 0.2 +
      (if 0 < maxRt then 1 - s.qos.response_time / maxRt else 0) * 0.05 := by
  unfold calculate_heuristic
  have hdiff : s.outputs.toFinset \ (params ∪ s.outputs.toFinset) = ∅ := by
    simp [Finset.sdiff_eq_empty_iff_subset]
  rw [hdiff]
  simp

/-- Resolving one more id through `service_dict` appends one utility. -/
theorem resolvedUtils_append (services : List Service)
    (request : CompositionRequest) (p : List String) (s : Service)
    (hs : service_dict services s.id = some s) :
    resolvedUtils services request (p ++ [s.id]) =
      resolvedUtils services request p ++ [serviceUtility request s] := by
  unfold resolvedUtils
  rw [List.filterMap_append, List.map_append]
  congr 1
  simp [hs]

/-- The empty path is a good path for any carried utility. -/
theorem goodPath_nil (services : List Service) (request : CompositionRequest)
    (u : ℚ) : GoodPath services request [] u :=
  ⟨List.nodup_nil, fun h => absurd rfl h⟩

/-- Extending a good path by a fresh service id yields a good path whose
bottleneck utility is updated exactly as the search loops update it. -/
theorem goodPath_extend (services : List Service)
    (request : CompositionRequest) (p : List String) (u : ℚ) (s : Service)
    (hs : service_dict services s.id = some s) (hnot : s.id ∉ p)
    (hg : GoodPath services request p u) :
    GoodPath services request (p ++ [s.id])
      (if p = [] then serviceUtility request s
       else min u (serviceUtility request s)) := by
  constructor
  · rw [List.nodup_append]
    refine ⟨hg.1, List.nodup_singleton _, ?_⟩
    simpa [List.disjoint_singleton] using hnot
  · intro _
    rw [resolvedUtils_append services request p s hs]
    by_cases hp : p = []
    · subst hp
      rw [if_pos rfl]
      exact minQ?_singleton _
    · rw [if_neg hp]
      exact minQ?_append_singleton _ _ _ (hg.2 hp)

/-- The Dijkstra expansion step either discards the successor or pushes
exactly one new entry (and records its utility in the best map); a push
happens only when the successor strictly improves on any recorded utility
for its parameter set. -/
theorem expandDijStep_cases (request : CompositionRequest) (st : SearchState)
    (acc : SearchAcc SearchState) (s : Service) :
    expandDijStep request st acc s = acc ∨
    (expandDijStep request st acc s =
      { acc with
        best := (st.params ∪ s.outputs.toFinset,
          if st.path = [] then serviceUtility request s
          else min st.utility (serviceUtility request s)) :: acc.best
        counter := acc.counter + 1
        queue := acc.queue ++
          [(-(if st.path = [] then serviceUtility request s
              else min st.utility (serviceUtility request s)),
            acc.counter + 1,
            ⟨if st.path = [] then serviceUtility request s
             else min st.utility (serviceUtility request s),
             st.path ++ [s.id], st.params ∪ s.outputs.toFinset⟩)] } ∧
      ∀ b, lookupBU acc.best (st.params ∪ s.outputs.toFinset) = some b →
        b < (if st.path = [] then serviceUtility request s
             else min st.utility (serviceUtility request s))) := by
  unfold expandDijStep
  dsimp only
  cases hlk : lookupBU acc.best (st.params ∪ s.outputs.toFinset) with
  | none => exact Or.inr ⟨rfl, fun b hb => Option.noConfusion hb⟩
  | some b =>
    dsimp only
    by_cases hle :
        (if st.path = [] then serviceUtility request s
         else min st.utility (serviceUtility request s)) ≤ b
    · rw [if_pos hle]; exact Or.inl rfl
    · rw [if_neg hle]
      refine Or.inr ⟨rfl, fun b' hb' => ?_⟩
      rw [Option.some.injEq] at hb'
      subst hb'
      exact lt_of_not_le hle

/-- Expanding a good state preserves the Dijkstra invariant and leaves the
best-solution fields and the iteration counter untouched. -/
theorem expandDij_inv (services : List Service)
    (request : CompositionRequest) (pool : List Service) (st : SearchState)
    (acc : SearchAcc SearchState) (hpool : poolOk services pool)
    (hst : GoodPath services request st.path st.utility)
    (hinv : DijInv services request acc) :
    DijInv services request (expandDij services request pool st acc) ∧
    (expandDij services request pool st acc).bestSol = acc.bestSol ∧
    (expandDij services request pool st acc).bestUtil = acc.bestUtil ∧
    (expandDij services request pool st acc).iterations = acc.iterations := by
  unfold expandDij
  refine foldl_inv
    (P := fun b => DijInv services request b ∧ b.bestSol = acc.bestSol ∧
      b.bestUtil = acc.bestUtil ∧ b.iterations = acc.iterations)
    (Q := fun a => a.id ∉ st.path ∧ service_dict services a.id = some a)
    (expandDijStep request st) _ acc
    ⟨hinv, rfl, rfl, rfl⟩
    (fun a ha => ?_) (fun b a hP hQ => ?_)
  · exact ⟨(applicable_facts services pool st.path st.params a ha).2,
      hpool a (applicable_facts services pool st.path st.params a ha).1⟩
  · rcases expandDijStep_cases request st b a with h | ⟨h, -⟩ <;> rw [h]
    · exact hP
    · obtain ⟨⟨hqueue, hsol⟩, hbs, hbu, hit⟩ := hP
      refine ⟨⟨?_, ?_⟩, hbs, hbu, hit⟩
      · intro e he
        rcases List.mem_append.mp he with h1 | h2
        · exact hqueue e h1
        · rw [List.mem_singleton] at h2
          subst h2
          exact goodPath_extend services request st.path st.utility a
            hQ.2 hQ.1 hst
      · exact hsol

/-- Function `recordGoal` leaves the queue, best map and iteration counter
untouched. -/
theorem recordGoal_fields {σ : Type} (acc : SearchAcc σ) (u : ℚ)
    (p : List String) :
    (recordGoal acc u p).queue = acc.queue ∧
    (recordGoal acc u p).best = acc.best ∧
    (recordGoal acc u p).iterations = acc.iterations := by
  unfold recordGoal
  split <;> exact ⟨rfl, rfl, rfl⟩

/-- Recording a good goal path preserves the best-solution invariant. -/
theorem recordGoal_inv {σ : Type} (services : List Service)
    (request : CompositionRequest) (acc : SearchAcc σ) (u : ℚ)
    (p : List String) (hgp : GoodPath services request p u)
    (hsol : ∀ q, acc.bestSol = some q →
      q.Nodup ∧ (q ≠ [] → minQ? (resolvedUtils services request q) = acc.bestUtil)) :
    ∀ q, (recordGoal acc u p).bestSol = some q →
      q.Nodup ∧ (q ≠ [] →
        minQ? (resolvedUtils services request q) = (recordGoal acc u p).bestUtil) := by
  unfold recordGoal
  split
  · intro q hq
    dsimp at hq ⊢
    rw [Option.some.injEq] at hq
    subst hq
    exact ⟨hgp.1, fun hne => hgp.2 hne⟩
  · exact hsol

/-- The Dijkstra main loop preserves the invariant. -/
theorem dijkstraLoop_inv (services : List Service)
    (request : CompositionRequest) (pool : List Service) (timeLimit : ℕ)
    (hpool : poolOk services pool) :
    ∀ fuel acc, DijInv services request acc →
      DijInv services request
        (dijkstraLoop services request pool timeLimit fuel acc) := by
  intro fuel
  induction fuel with
  | zero => intro acc h; exact h
  | succ n ih =>
    intro acc h
    rw [dijkstraLoop]
    split
    · exact h
    · split
      · exact h
      · split
        · exact h
        · rename_i e rest hpm
          dsimp only
          obtain ⟨hemem, hsub⟩ := popMin_mem acc.queue e rest hpm
          have hacc1 : DijInv services request
              { acc with queue := rest, iterations := acc.iterations + 1 } :=
            ⟨fun x hx => h.1 x (hsub x hx), h.2⟩
          split
          · exact ih _ hacc1
          · split
            · apply ih
              constructor
              · intro x hx
                rw [(recordGoal_fields _ _ _).1] at hx
                exact hacc1.1 x hx
              · exact recordGoal_inv services request _ _ _
                  (h.1 e hemem) hacc1.2
            · exact ih _ (expandDij_inv services request pool e.2.2 _
                hpool (h.1 e hemem) hacc1).1

/-- Function `_dijkstra_compose` produces duplicate-free workflows obeying the
bottleneck law. -/
theorem dijkstra_compose_props (services : List Service)
    (request : CompositionRequest) (pool : List Service) (timeLimit : ℕ)
    (hpool : poolOk services pool) :
    (dijkstra_compose services request pool timeLimit).workflow.Nodup ∧
    ((dijkstra_compose services request pool timeLimit).services ≠ [] →
      minQ? ((dijkstra_compose services request pool timeLimit).services.map
          (serviceUtility request)) =
        some (dijkstra_compose services request pool timeLimit).utility_value) := by
  unfold dijkstra_compose
  have hinit : DijInv services request
      { queue := [(0, 0, ⟨0, [], request.provided.toFinset⟩)],
        best := [(request.provided.toFinset, 0)], counter := 0,
        bestSol := none, bestUtil := none, iterations := 0 } := by
    constructor
    · intro e he
      rw [List.mem_singleton] at he
      subst he
      exact goodPath_nil services request 0
    · intro p hp
      exact Option.noConfusion hp
  have hinv := dijkstraLoop_inv services request pool timeLimit hpool
    max_iterations _ hinit
  dsimp only
  cases hbs : (dijkstraLoop services request pool timeLimit max_iterations
      { queue := [(0, 0, ⟨0, [], request.provided.toFinset⟩)],
        best := [(request.provided.toFinset, 0)], counter := 0,
        bestSol := none, bestUtil := none, iterations := 0 }).bestSol with
  | none =>
    exact ⟨List.nodup_nil, fun hne => absurd rfl hne⟩
  | some p =>
    cases p with
    | nil =>
      exact ⟨List.nodup_nil, fun hne => absurd rfl hne⟩
    | cons sid rest =>
      have hsol := hinv.2 (sid :: rest) hbs
      dsimp only
      constructor
      · exact hsol.1
      · intro hsvc
        have hmin := hsol.2 (by simp)
        show minQ? (resolvedUtils services request (sid :: rest)) = _
        cases hru : resolvedUtils services request (sid :: rest) with
        | nil =>
          exfalso
          apply hsvc
          have : ((sid :: rest).filterMap (service_dict services)).map
              (serviceUtility request) = [] := hru
          exact List.map_eq_nil.mp this
        | cons a as =>
          rw [hru, minQ?_cons] at hmin
          rw [minQ?_cons, ← hmin]
          rfl

/-- The A* expansion step either discards the successor or pushes exactly
one new entry whose priority is `-(g + h)`; a push happens only when the
successor strictly improves on any recorded `g` for its parameter set. -/
theorem expandAStep_cases (request : CompositionRequest) (maxRt : ℚ)
    (st : AState) (acc : SearchAcc AState) (s : Service) :
    expandAStep request maxRt st acc s = acc ∨
    (expandAStep request maxRt st acc s =
      { acc with
        best := (st.params ∪ s.outputs.toFinset,
          if st.path = [] then serviceUtility request s
          else min st.g (serviceUtility request s)) :: acc.best
        counter := acc.counter + 1
        queue := acc.queue ++
          [(-((if st.path = [] then serviceUtility request s
               else min st.g (serviceUtility request s)) +
              calculate_heuristic request maxRt s (st.params ∪ s.outputs.toFinset)),
            acc.counter + 1,
            ⟨if st.path = [] then serviceUtility request s
             else min st.g (serviceUtility request s),
             calculate_heuristic request maxRt s (st.params ∪ s.outputs.toFinset),
             st.path ++ [s.id], st.params ∪ s.outputs.toFinset⟩)] } ∧
      ∀ b, lookupBU acc.best (st.params ∪ s.outputs.toFinset) = some b →
        b < (if st.path = [] then serviceUtility request s
             else min st.g (serviceUtility request s))) := by
  unfold expandAStep
  dsimp only
  cases hlk : lookupBU acc.best (st.params ∪ s.outputs.toFinset) with
  | none => exact Or.inr ⟨rfl, fun b hb => Option.noConfusion hb⟩
  | some b =>
    dsimp only
    by_cases hle :
        (if st.path = [] then serviceUtility request s
         else min st.g (serviceUtility request s)) ≤ b
    · rw [if_pos hle]; exact Or.inl rfl
    · rw [if_neg hle]
      refine Or.inr ⟨rfl, fun b' hb' => ?_⟩
      rw [Option.some.injEq] at hb'
      subst hb'
      exact lt_of_not_le hle

/-- Expanding a good A* state preserves the invariant and leaves the
best-solution fields and the iteration counter untouched. -/
theorem expandA_inv (services : List Service) (request : CompositionRequest)
    (maxRt : ℚ) (pool : List Service) (st : AState) (acc : SearchAcc AState)
    (hpool : poolOk services pool)
    (hst : GoodPath services request st.path st.g)
    (hinv : AInv services request acc) :
    AInv services request (expandA services request maxRt pool st acc) ∧
    (expandA services request maxRt pool st acc).bestSol = acc.bestSol ∧
    (expandA services request maxRt pool st acc).bestUtil = acc.bestUtil ∧
    (expandA services request maxRt pool st acc).iterations = acc.iterations := by
  unfold expandA
  refine foldl_inv
    (P := fun b => AInv services request b ∧ b.bestSol = acc.bestSol ∧
      b.bestUtil = acc.bestUtil ∧ b.iterations = acc.iterations)
    (Q := fun a => a.id ∉ st.path ∧ service_dict services a.id = some a)
    (expandAStep request maxRt st) _ acc
    ⟨hinv, rfl, rfl, rfl⟩
    (fun a ha => ?_) (fun b a hP hQ => ?_)
  · exact ⟨(applicable_facts services pool st.path st.params a ha).2,
      hpool a (applicable_facts services pool st.path st.params a ha).1⟩
  · rcases expandAStep_cases request maxRt st b a with h | ⟨h, -⟩ <;> rw [h]
    · exact hP
    · obtain ⟨⟨hqueue, hsol⟩, hbs, hbu, hit⟩ := hP
      refine ⟨⟨?_, ?_⟩, hbs, hbu, hit⟩
      · intro e he
        rcases List.mem_append.mp he with h1 | h2
        · exact hqueue e h1
        · rw [List.mem_singleton] at h2
          subst h2
          exact goodPath_extend services request st.path st.g a hQ.2 hQ.1 hst
      · exact hsol

/-- The A* main loop preserves the invariant. -/
theorem astarLoop_inv (services : List Service)
    (request : CompositionRequest) (maxRt : ℚ) (pool : List Service)
    (timeLimit : ℕ) (hpool : poolOk services pool) :
    ∀ fuel acc, AInv services request acc →
      AInv services request
        (astarLoop services request maxRt pool timeLimit fuel acc) := by
  intro fuel
  induction fuel with
  | zero => intro acc h; exact h
  | succ n ih =>
    intro acc h
    rw [astarLoop]
    split
    · exact h
    · split
      · exact h
      · split
        · exact h
        · rename_i e rest hpm
          dsimp only
          obtain ⟨hemem, hsub⟩ := popMin_mem acc.queue e rest hpm
          have hacc1 : AInv services request
              { acc with queue := rest, iterations := acc.iterations + 1 } :=
            ⟨fun x hx => h.1 x (hsub x hx), h.2⟩
          split
          · exact ih _ hacc1
          · split
            · apply ih
              constructor
              · intro x hx
                rw [(recordGoal_fields _ _ _).1] at hx
                exact hacc1.1 x hx
              · exact recordGoal_inv services request _ _ _
                  (h.1 e hemem) hacc1.2
            · exact ih _ (expandA_inv services request maxRt pool e.2.2 _
                hpool (h.1 e hemem) hacc1).1

/-- Function `_astar_compose` produces duplicate-free workflows obeying the
bottleneck law. -/
theorem astar_compose_props (services : List Service)
    (request : CompositionRequest) (pool : List Service) (timeLimit : ℕ)
    (hpool : poolOk services pool) :
    (astar_compose services request pool timeLimit).workflow.Nodup ∧
    ((astar_compose services request pool timeLimit).services ≠ [] →
      minQ? ((astar_compose services request pool timeLimit).services.map
          (serviceUtility request)) =
        some (astar_compose services request pool timeLimit).utility_value) := by
  unfold astar_compose
  have hinit : AInv services request
      { queue := [(0, 0, ⟨0, 0, [], request.provided.toFinset⟩)],
        best := [(request.provided.toFinset, 0)], counter := 0,
        bestSol := none, bestUtil := none, iterations := 0 } := by
    constructor
    · intro e he
      rw [List.mem_singleton] at he
      subst he
      exact goodPath_nil services request 0
    · intro p hp
      exact Option.noConfusion hp
  have hinv := astarLoop_inv services request (max_rt pool) pool timeLimit
    hpool max_iterations _ hinit
  dsimp only
  cases hbs : (astarLoop services request (max_rt pool) pool timeLimit
      max_iterations
      { queue := [(0, 0, ⟨0, 0, [], request.provided.toFinset⟩)],
        best := [(request.provided.toFinset, 0)], counter := 0,
        bestSol := none, bestUtil := none, iterations := 0 }).bestSol with
  | none =>
    exact ⟨List.nodup_nil, fun hne => absurd rfl hne⟩
  | some p =>
    cases p with
    | nil =>
      exact ⟨List.nodup_nil, fun hne => absurd rfl hne⟩
    | cons sid rest =>
      have hsol := hinv.2 (sid :: rest) hbs
      dsimp only
      constructor
      · exact hsol.1
      · intro hsvc
        have hmin := hsol.2 (by simp)
        show minQ? (resolvedUtils services request (sid :: rest)) = _
        cases hru : resolvedUtils services request (sid :: rest) with
        | nil =>
          exfalso
          apply hsvc
          have : ((sid :: rest).filterMap (service_dict services)).map
              (serviceUtility request) = [] := hru
          exact List.map_eq_nil.mp this
        | cons a as =>
          rw [hru, minQ?_cons] at hmin
          rw [minQ?_cons, ← hmin]
          rfl

/-- A keep-or-replace left fold always returns an element of the input. -/
theorem foldl_pick_mem {α : Type _} (g : α → α → Prop)
    [∀ a b, Decidable (g a b)] :
    ∀ (cs : List α) (c : α),
      cs.foldl (fun b x => if g b x then x else b) c ∈ c :: cs := by
  intro cs
  induction cs with
  | nil => intro c; simp
  | cons a as ih =>
    intro c
    rw [List.foldl_cons]
    rcases List.mem_cons.mp (ih (if g c a then a else c)) with h | h
    · rw [h]
      by_cases hg : g c a <;> simp [hg]
    · exact List.mem_cons_of_mem _ (List.mem_cons_of_mem _ h)

/-- The greedy choice is one of the applicable candidates. -/
theorem greedyPick_mem (request : CompositionRequest)
    (applicable : List Service) (s : Service)
    (h : greedyPick request applicable = some s) : s ∈ applicable := by
  unfold greedyPick at h
  cases happ : applicable with
  | nil => rw [happ] at h; simp at h
  | cons a as =>
    rw [happ] at h
    rw [List.map_cons] at h
    rw [Option.some.injEq] at h
    subst h
    have hm := foldl_pick_mem (fun b x : Service × ℚ => b.2 < x.2)
      (as.map fun s => (s, serviceUtility request s +
        if optMemL request.resultant s.outputs = true then (100 : ℚ) else 0))
      (a, serviceUtility request a +
        if optMemL request.resultant a.outputs = true then (100 : ℚ) else 0)
    rcases List.mem_cons.mp hm with hm1 | hm2
    · rw [hm1]
      exact happ ▸ List.mem_cons_self a as
    · obtain ⟨x, hx, hfx⟩ := List.mem_map.mp hm2
      rw [← hfx]
      exact happ ▸ List.mem_cons_of_mem a hx

/-- The greedy loop preserves "the path is duplicate-free and the utilities
list is exactly the per-service utilities along the path". -/
theorem greedyLoop_inv (services : List Service)
    (request : CompositionRequest) (pool : List Service)
    (hpool : poolOk services pool) :
    ∀ (fuel : ℕ) (avail : Finset String) (path : List String)
      (utils : List ℚ) (steps : ℕ), path.Nodup →
      utils = resolvedUtils services request path →
      (greedyLoop services request pool fuel avail path utils steps).2.1.Nodup ∧
      (greedyLoop services request pool fuel avail path utils steps).2.2.1 =
        resolvedUtils services request
          (greedyLoop services request pool fuel avail path utils steps).2.1 := by
  intro fuel
  induction fuel with
  | zero => intro avail path utils steps hnd hu; exact ⟨hnd, hu⟩
  | succ n ih =>
    intro avail path utils steps hnd hu
    rw [greedyLoop]
    split
    · exact ⟨hnd, hu⟩
    · split
      · exact ⟨hnd, hu⟩
      · rename_i best hpick
        have hbm := greedyPick_mem request _ best hpick
        obtain ⟨hbp, hbnot⟩ :=
          applicable_facts services pool path avail best hbm
        apply ih
        · rw [List.nodup_append]
          refine ⟨hnd, List.nodup_singleton _, ?_⟩
          simpa [List.disjoint_singleton] using hbnot
        · rw [resolvedUtils_append services request path best (hpool best hbp)]
          rw [hu]

/-- Function `_greedy_compose` produces duplicate-free workflows obeying the
bottleneck law. -/
theorem greedy_compose_props (services : List Service)
    (request : CompositionRequest) (pool : List Service)
    (hpool : poolOk services pool) :
    (greedy_compose services request pool).workflow.Nodup ∧
    ((greedy_compose services request pool).services ≠ [] →
      minQ? ((greedy_compose services request pool).services.map
          (serviceUtility request)) =
        some (greedy_compose services request pool).utility_value) := by
  unfold greedy_compose
  obtain ⟨hnd, hu⟩ := greedyLoop_inv services request pool hpool 50
    request.provided.toFinset [] [] 0 List.nodup_nil rfl
  dsimp only
  split
  · dsimp only
    constructor
    · exact hnd
    · intro hsvc
      have hmap :
          ((greedyLoop services request pool 50 request.provided.toFinset
              [] [] 0).2.1.filterMap (service_dict services)).map
            (serviceUtility request) =
          (greedyLoop services request pool 50 request.provided.toFinset
              [] [] 0).2.2.1 := by
        rw [hu]; rfl
      show minQ? _ = _
      rw [hmap]
      cases hutils : (greedyLoop services request pool 50
          request.provided.toFinset [] [] 0).2.2.1 with
      | nil =>
        exfalso
        apply hsvc
        rw [hutils] at hmap
        exact List.map_eq_nil.mp hmap
      | cons a as =>
        rw [minQ?_cons]
  · exact ⟨List.nodup_nil, fun hne => absurd rfl hne⟩

/-- Every `compose` result has a duplicate-free workflow, and every
successful one obeys the bottleneck law. -/
theorem compose_props (services : List Service)
    (request : CompositionRequest) (algorithm : String) (timeLimit : ℕ) :
    (compose services request algorithm timeLimit).workflow.Nodup ∧
    ((compose services request algorithm timeLimit).success = true →
      minQ? ((compose services request algorithm timeLimit).services.map
          (serviceUtility request)) =
        some (compose services request algorithm timeLimit).utility_value) := by
  unfold compose
  dsimp only
  by_cases hrel : get_relevant_services services request = []
  · rw [if_pos hrel]
    exact ⟨List.nodup_nil, fun hs => by simp [CompositionResult.init] at hs⟩
  · rw [if_neg hrel]
    have hpool := relevant_poolOk services request
    by_cases hd : algorithm = "dijkstra"
    · rw [if_pos hd]
      obtain ⟨hnd, hmin⟩ := dijkstra_compose_props services request
        (get_relevant_services services request) timeLimit hpool
      refine ⟨hnd, fun hs => ?_⟩
      have hlen : 0 < (dijkstra_compose services request
          (get_relevant_services services request) timeLimit).services.length :=
        of_decide_eq_true hs
      exact hmin (List.ne_nil_of_length_pos hlen)
    · rw [if_neg hd]
      by_cases ha : algorithm = "astar"
      · rw [if_pos ha]
        obtain ⟨hnd, hmin⟩ := astar_compose_props services request
          (get_relevant_services services request) timeLimit hpool
        refine ⟨hnd, fun hs => ?_⟩
        have hlen : 0 < (astar_compose services request
            (get_relevant_services services request) timeLimit).services.length :=
          of_decide_eq_true hs
        exact hmin (List.ne_nil_of_length_pos hlen)
      · rw [if_neg ha]
        obtain ⟨hnd, hmin⟩ := greedy_compose_props services request
          (get_relevant_services services request) hpool
        refine ⟨hnd, fun hs => ?_⟩
        have hlen : 0 < (greedy_compose services request
            (get_relevant_services services request)).services.length :=
          of_decide_eq_true hs
        exact hmin (List.ne_nil_of_length_pos hlen)

/-- Claim C2: for every service pool, request and strategy (dijkstra, astar,
or the greedy fallback), any successful `compose` result satisfies the
bottleneck law: its `utility_value` equals the minimum, over the services in
its workflow, of `calculate_utility` applied to that service's QoS against
the request's constraints.  (For a single-service workflow the minimum is
that one service's utility.) -/
theorem bottleneck_law (services : List Service)
    (request : CompositionRequest) (algorithm : String) (timeLimit : ℕ)
    (h : (compose services request algorithm timeLimit).success = true) :
    minQ? ((compose services request algorithm timeLimit).services.map
        (serviceUtility request)) =
      some (compose services request algorithm timeLimit).utility_value :=
  (compose_props services request algorithm timeLimit).2 h

/-- Witness for C2: a concrete pool on which the dijkstra strategy
succeeds. -/
theorem bottleneck_law_witness :
    (compose [svcW1] reqW "dijkstra" max_iterations).success = true ∧
    minQ? ((compose [svcW1] reqW "dijkstra" max_iterations).services.map
        (serviceUtility reqW)) =
      some (compose [svcW1] reqW "dijkstra" max_iterations).utility_value :=
  ⟨by with_unfolding_all rfl,
    bottleneck_law [svcW1] reqW "dijkstra" max_iterations
      (by with_unfolding_all rfl)⟩

/-- Claim C8: no workflow returned by `compose` contains a repeated service
id, for any pool, request, strategy and time budget (a service already used
earlier in the same path is never applicable again on that path). -/
theorem cycle_freedom (services : List Service)
    (request : CompositionRequest) (algorithm : String) (timeLimit : ℕ) :
    (compose services request algorithm timeLimit).workflow.Nodup :=
  (compose_props services request algorithm timeLimit).1

/-- Reflexivity of `optionLe`. -/
theorem optionLe_refl (a : Option ℚ) : optionLe a a := by
  cases a with
  | none => trivial
  | some x => exact ⟨x, rfl, le_refl x⟩

/-- Transitivity of `optionLe`. -/
theorem optionLe_trans (a b c : Option ℚ) (h1 : optionLe a b)
    (h2 : optionLe b c) : optionLe a c := by
  cases a with
  | none => trivial
  | some x =>
    obtain ⟨y, hby, hxy⟩ := h1
    rw [hby] at h2
    obtain ⟨z, hcz, hyz⟩ := h2
    exact ⟨z, hcz, le_trans hxy hyz⟩

/-- Lookup after a shadowing insert. -/
theorem lookupBU_cons (m : List (Finset String × ℚ)) (k : Finset String)
    (v : ℚ) (q : Finset String) :
    lookupBU ((k, v) :: m) q = if q = k then some v else lookupBU m q := by
  unfold lookupBU
  by_cases hq : q = k
  · rw [if_pos hq]
    rw [List.find?_cons_of_pos _ (by simp [hq])]
    rfl
  · rw [if_neg hq]
    rw [List.find?_cons_of_neg _ (by simp; exact fun h => hq h.symm)]

/-- One Dijkstra expansion step never decreases a recorded best utility. -/
theorem expandDijStep_mono (request : CompositionRequest) (st : SearchState)
    (acc : SearchAcc SearchState) (s : Service) (k : Finset String) :
    optionLe (lookupBU acc.best k)
      (lookupBU (expandDijStep request st acc s).best k) := by
  rcases expandDijStep_cases request st acc s with h | ⟨h, hguard⟩ <;> rw [h]
  · exact optionLe_refl _
  · rw [lookupBU_cons]
    by_cases hk : k = st.params ∪ s.outputs.toFinset
    · rw [if_pos hk]
      cases hlo : lookupBU acc.best k with
      | none => trivial
      | some b => exact ⟨_, rfl, le_of_lt (hguard b (hk ▸ hlo))⟩
    · rw [if_neg hk]
      exact optionLe_refl _

/-- One A* expansion step never decreases a recorded best `g` score. -/
theorem expandAStep_mono (request : CompositionRequest) (maxRt : ℚ)
    (st : AState) (acc : SearchAcc AState) (s : Service) (k : Finset String) :
    optionLe (lookupBU acc.best k)
      (lookupBU (expandAStep request maxRt st acc s).best k) := by
  rcases expandAStep_cases request maxRt st acc s with h | ⟨h, hguard⟩ <;> rw [h]
  · exact optionLe_refl _
  · rw [lookupBU_cons]
    by_cases hk : k = st.params ∪ s.outputs.toFinset
    · rw [if_pos hk]
      cases hlo : lookupBU acc.best k with
      | none => trivial
      | some b => exact ⟨_, rfl, le_of_lt (hguard b (hk ▸ hlo))⟩
    · rw [if_neg hk]
      exact optionLe_refl _

/-- A full Dijkstra expansion never decreases a recorded best utility. -/
theorem expandDij_mono (services : List Service)
    (request : CompositionRequest) (pool : List Service) (st : SearchState)
    (acc : SearchAcc SearchState) (k : Finset String) :
    optionLe (lookupBU acc.best k)
      (lookupBU (expandDij services request pool st acc).best k) := by
  unfold expandDij
  exact foldl_inv
    (P := fun b => optionLe (lookupBU acc.best k) (lookupBU b.best k))
    (Q := fun _ => True) (expandDijStep request st) _ acc (optionLe_refl _)
    (fun _ _ => trivial)
    (fun b a hP _ =>
      optionLe_trans _ _ _ hP (expandDijStep_mono request st b a k))

/-- A full A* expansion never decreases a recorded best `g` score. -/
theorem expandA_mono (services : List Service)
    (request : CompositionRequest) (maxRt : ℚ) (pool : List Service)
    (st : AState) (acc : SearchAcc AState) (k : Finset String) :
    optionLe (lookupBU acc.best k)
      (lookupBU (expandA services request maxRt pool st acc).best k) := by
  unfold expandA
  exact foldl_inv
    (P := fun b => optionLe (lookupBU acc.best k) (lookupBU b.best k))
    (Q := fun _ => True) (expandAStep request maxRt st) _ acc
    (optionLe_refl _) (fun _ _ => trivial)
    (fun b a hP _ =>
      optionLe_trans _ _ _ hP (expandAStep_mono request maxRt st b a k))

/-- Over a whole Dijkstra run, the best-utility map is monotonically
non-decreasing at every key. -/
theorem dijkstraLoop_mono (services : List Service)
    (request : CompositionRequest) (pool : List Service) (timeLimit : ℕ) :
    ∀ (fuel : ℕ) (acc : SearchAcc SearchState) (k : Finset String),
      optionLe (lookupBU acc.best k)
        (lookupBU (dijkstraLoop services request pool timeLimit fuel acc).best k) := by
  intro fuel
  induction fuel with
  | zero => intro acc k; exact optionLe_refl _
  | succ n ih =>
    intro acc k
    rw [dijkstraLoop]
    split
    · exact optionLe_refl _
    · split
      · exact optionLe_refl _
      · split
        · exact optionLe_refl _
        · rename_i e rest hpm
          dsimp only
          split
          · exact ih
              { acc with queue := rest, iterations := acc.iterations + 1 } k
          · split
            · have hb := (recordGoal_fields
                { acc with queue := rest, iterations := acc.iterations + 1 }
                e.2.2.utility e.2.2.path).2.1
              have := ih (recordGoal
                { acc with queue := rest, iterations := acc.iterations + 1 }
                e.2.2.utility e.2.2.path) k
              rw [hb] at this
              exact this
            · exact optionLe_trans _ _ _
                (expandDij_mono services request pool e.2.2
                  { acc with
                    queue := rest, iterations := acc.iterations + 1 } k)
                (ih _ k)

/-- Over a whole A* run, the best-`g` map is monotonically non-decreasing
at every key. -/
theorem astarLoop_mono (services : List Service)
    (request : CompositionRequest) (maxRt : ℚ) (pool : List Service)
    (timeLimit : ℕ) :
    ∀ (fuel : ℕ) (acc : SearchAcc AState) (k : Finset String),
      optionLe (lookupBU acc.best k)
        (lookupBU (astarLoop services request maxRt pool timeLimit fuel acc).best k) := by
  intro fuel
  induction fuel with
  | zero => intro acc k; exact optionLe_refl _
  | succ n ih =>
    intro acc k
    rw [astarLoop]
    split
    · exact optionLe_refl _
    · split
      · exact optionLe_refl _
      · split
        · exact optionLe_refl _
        · rename_i e rest hpm
          dsimp only
          split
          · exact ih
              { acc with queue := rest, iterations := acc.iterations + 1 } k
          · split
            · have hb := (recordGoal_fields
                { acc with queue := rest, iterations := acc.iterations + 1 }
                e.2.2.g e.2.2.path).2.1
              have := ih (recordGoal
                { acc with queue := rest, iterations := acc.iterations + 1 }
                e.2.2.g e.2.2.path) k
              rw [hb] at this
              exact this
            · exact optionLe_trans _ _ _
                (expandA_mono services request maxRt pool e.2.2
                  { acc with
                    queue := rest, iterations := acc.iterations + 1 } k)
                (ih _ k)

/-- A Dijkstra successor dominated by the recorded utility of its parameter
set is discarded: the accumulator is returned unchanged. -/
theorem expandDijStep_discard (request : CompositionRequest)
    (st : SearchState) (acc : SearchAcc SearchState) (s : Service) (b : ℚ)
    (hb : lookupBU acc.best (st.params ∪ s.outputs.toFinset) = some b)
    (hle : (if st.path = [] then serviceUtility request s
            else min st.utility (serviceUtility request s)) ≤ b) :
    expandDijStep request st acc s = acc := by
  rcases expandDijStep_cases request st acc s with h | ⟨h, hguard⟩
  · exact h
  · exact absurd hle (not_le_of_lt (hguard b hb))

/-- An A* successor dominated by the recorded `g` of its parameter set is
discarded: the accumulator is returned unchanged. -/
theorem expandAStep_discard (request : CompositionRequest) (maxRt : ℚ)
    (st : AState) (acc : SearchAcc AState) (s : Service) (b : ℚ)
    (hb : lookupBU acc.best (st.params ∪ s.outputs.toFinset) = some b)
    (hle : (if st.path = [] then serviceUtility request s
            else min st.g (serviceUtility request s)) ≤ b) :
    expandAStep request maxRt st acc s = acc := by
  rcases expandAStep_cases request maxRt st acc s with h | ⟨h, hguard⟩
  · exact h
  · exact absurd hle (not_le_of_lt (hguard b hb))

/-- Claim C4: in the dijkstra and astar strategies, the best-utility map keyed
by available-parameter set is monotonically non-decreasing per key over a
run, and a successor whose parameter set already has a recorded utility
greater than or equal to the successor's utility is discarded and never
pushed. -/
theorem dedup_invariant :
    (∀ (services : List Service) (request : CompositionRequest)
        (pool : List Service) (timeLimit fuel : ℕ)
        (acc : SearchAcc SearchState) (k : Finset String),
      optionLe (lookupBU acc.best k)
        (lookupBU (dijkstraLoop services request pool timeLimit fuel acc).best k)) ∧
    (∀ (services : List Service) (request : CompositionRequest) (maxRt : ℚ)
        (pool : List Service) (timeLimit fuel : ℕ)
        (acc : SearchAcc AState) (k : Finset String),
      optionLe (lookupBU acc.best k)
        (lookupBU (astarLoop services request maxRt pool timeLimit fuel acc).best k)) ∧
    (∀ (request : CompositionRequest) (st : SearchState)
        (acc : SearchAcc SearchState) (s : Service) (b : ℚ),
      lookupBU acc.best (st.params ∪ s.outputs.toFinset) = some b →
      (if st.path = [] then serviceUtility request s
       else min st.utility (serviceUtility request s)) ≤ b →
      expandDijStep request st acc s = acc) ∧
    (∀ (request : CompositionRequest) (maxRt : ℚ) (st : AState)
        (acc : SearchAcc AState) (s : Service) (b : ℚ),
      lookupBU acc.best (st.params ∪ s.outputs.toFinset) = some b →
      (if st.path = [] then serviceUtility request s
       else min st.g (serviceUtility request s)) ≤ b →
      expandAStep request maxRt st acc s = acc) :=
  ⟨fun services request pool timeLimit fuel acc k =>
      dijkstraLoop_mono services request pool timeLimit fuel acc k,
    fun services request maxRt pool timeLimit fuel acc k =>
      astarLoop_mono services request maxRt pool timeLimit fuel acc k,
    fun request st acc s b hb hle =>
      expandDijStep_discard request st acc s b hb hle,
    fun request maxRt st acc s b hb hle =>
      expandAStep_discard request maxRt st acc s b hb hle⟩

/-- Witness for C4: a concrete dominated successor is discarded. -/
theorem dedup_invariant_witness : expandDijStep reqW stW accW svcW1 = accW :=
  dedup_invariant.2.2.1 reqW stW accW svcW1 1000 (by with_unfolding_all rfl)
    (by with_unfolding_all decide)

/-- A Dijkstra expansion does not touch the iteration counter. -/
theorem expandDij_iterations (services : List Service)
    (request : CompositionRequest) (pool : List Service) (st : SearchState)
    (acc : SearchAcc SearchState) :
    (expandDij services request pool st acc).iterations = acc.iterations := by
  unfold expandDij
  exact foldl_inv (P := fun b => b.iterations = acc.iterations)
    (Q := fun _ => True) (expandDijStep request st) _ acc rfl
    (fun _ _ => trivial)
    (fun b a hP _ => by
      rcases expandDijStep_cases request st b a with h | ⟨h, -⟩ <;> rw [h]
      · exact hP
      · exact hP)

/-- An A* expansion does not touch the iteration counter. -/
theorem expandA_iterations (services : List Service)
    (request : CompositionRequest) (maxRt : ℚ) (pool : List Service)
    (st : AState) (acc : SearchAcc AState) :
    (expandA services request maxRt pool st acc).iterations =
      acc.iterations := by
  unfold expandA
  exact foldl_inv (P := fun b => b.iterations = acc.iterations)
    (Q := fun _ => True) (expandAStep request maxRt st) _ acc rfl
    (fun _ _ => trivial)
    (fun b a hP _ => by
      rcases expandAStep_cases request maxRt st b a with h | ⟨h, -⟩ <;> rw [h]
      · exact hP
      · exact hP)

/-- The Dijkstra loop is insensitive to the wall-clock budget as long as the
budget exceeds the remaining iteration fuel. -/
theorem dijkstraLoop_time (services : List Service)
    (request : CompositionRequest) (pool : List Service) :
    ∀ (fuel : ℕ) (acc : SearchAcc SearchState) (T1 T2 : ℕ),
      acc.iterations + fuel ≤ T1 → acc.iterations + fuel ≤ T2 →
      dijkstraLoop services request pool T1 fuel acc =
        dijkstraLoop services request pool T2 fuel acc := by
  intro fuel
  induction fuel with
  | zero => intro acc T1 T2 h1 h2; rfl
  | succ n ih =>
    intro acc T1 T2 h1 h2
    rw [dijkstraLoop, dijkstraLoop]
    by_cases hq : acc.queue = []
    · rw [if_pos hq, if_pos hq]
    · rw [if_neg hq, if_neg hq]
      have hlt1 : acc.iterations < T1 := by omega
      have hlt2 : acc.iterations < T2 := by omega
      rw [if_neg (not_not_intro hlt1), if_neg (not_not_intro hlt2)]
      cases hpm : popMin acc.queue with
      | none => rfl
      | some pr =>
        obtain ⟨e, rest⟩ := pr
        dsimp only
        by_cases hstale :
            staleB acc.best e.2.2.params e.2.2.utility = true
        · rw [if_pos hstale, if_pos hstale]
          exact ih _ T1 T2
            (by show acc.iterations + 1 + n ≤ T1; omega)
            (by show acc.iterations + 1 + n ≤ T2; omega)
        · rw [if_neg hstale, if_neg hstale]
          by_cases hgoal : optMemF request.resultant e.2.2.params = true
          · rw [if_pos hgoal, if_pos hgoal]
            apply ih
            · rw [(recordGoal_fields _ _ _).2.2]
              show acc.iterations + 1 + n ≤ T1
              omega
            · rw [(recordGoal_fields _ _ _).2.2]
              show acc.iterations + 1 + n ≤ T2
              omega
          · rw [if_neg hgoal, if_neg hgoal]
            apply ih
            · rw [expandDij_iterations]
              show acc.iterations + 1 + n ≤ T1
              omega
            · rw [expandDij_iterations]
              show acc.iterations + 1 + n ≤ T2
              omega

/-- The A* loop is insensitive to the wall-clock budget as long as the
budget exceeds the remaining iteration fuel. -/
theorem astarLoop_time (services : List Service)
    (request : CompositionRequest) (maxRt : ℚ) (pool : List Service) :
    ∀ (fuel : ℕ) (acc : SearchAcc AState) (T1 T2 : ℕ),
      acc.iterations + fuel ≤ T1 → acc.iterations + fuel ≤ T2 →
      astarLoop services request maxRt pool T1 fuel acc =
        astarLoop services request maxRt pool T2 fuel acc := by
  intro fuel
  induction fuel with
  | zero => intro acc T1 T2 h1 h2; rfl
  | succ n ih =>
    intro acc T1 T2 h1 h2
    rw [astarLoop, astarLoop]
    by_cases hq : acc.queue = []
    · rw [if_pos hq, if_pos hq]
    · rw [if_neg hq, if_neg hq]
      have hlt1 : acc.iterations < T1 := by omega
      have hlt2 : acc.iterations < T2 := by omega
      rw [if_neg (not_not_intro hlt1), if_neg (not_not_intro hlt2)]
      cases hpm : popMin acc.queue with
      | none => rfl
      | some pr =>
        obtain ⟨e, rest⟩ := pr
        dsimp only
        by_cases hstale : staleB acc.best e.2.2.params e.2.2.g = true
        · rw [if_pos hstale, if_pos hstale]
          exact ih _ T1 T2
            (by show acc.iterations + 1 + n ≤ T1; omega)
            (by show acc.iterations + 1 + n ≤ T2; omega)
        · rw [if_neg hstale, if_neg hstale]
          by_cases hgoal : optMemF request.resultant e.2.2.params = true
          · rw [if_pos hgoal, if_pos hgoal]
            apply ih
            · rw [(recordGoal_fields _ _ _).2.2]
              show acc.iterations + 1 + n ≤ T1
              omega
            · rw [(recordGoal_fields _ _ _).2.2]
              show acc.iterations + 1 + n ≤ T2
              omega
          · rw [if_neg hgoal, if_neg hgoal]
            apply ih
            · rw [expandA_iterations]
              show acc.iterations + 1 + n ≤ T1
              omega
            · rw [expandA_iterations]
              show acc.iterations + 1 + n ≤ T2
              omega

/-- Function `_dijkstra_compose` is unchanged by any wall-clock budget that does not
cut the run short of the iteration ceiling. -/
theorem dijkstra_compose_time (services : List Service)
    (request : CompositionRequest) (pool : List Service) (T1 T2 : ℕ)
    (h1 : max_iterations ≤ T1) (h2 : max_iterations ≤ T2) :
    dijkstra_compose services request pool T1 =
      dijkstra_compose services request pool T2 := by
  unfold dijkstra_compose
  dsimp only
  rw [dijkstraLoop_time services request pool max_iterations
    { queue := [(0, 0, ⟨0, [], request.provided.toFinset⟩)],
      best := [(request.provided.toFinset, 0)], counter := 0,
      bestSol := none, bestUtil := none, iterations := 0 } T1 T2
    (by simpa using h1) (by simpa using h2)]

/-- Function `_astar_compose` is unchanged by any wall-clock budget that does not
cut the run short of the iteration ceiling. -/
theorem astar_compose_time (services : List Service)
    (request : CompositionRequest) (pool : List Service) (T1 T2 : ℕ)
    (h1 : max_iterations ≤ T1) (h2 : max_iterations ≤ T2) :
    astar_compose services request pool T1 =
      astar_compose services request pool T2 := by
  unfold astar_compose
  dsimp only
  rw [astarLoop_time services request (max_rt pool) pool max_iterations
    { queue := [(0, 0, ⟨0, 0, [], request.provided.toFinset⟩)],
      best := [(request.provided.toFinset, 0)], counter := 0,
      bestSol := none, bestUtil := none, iterations := 0 } T1 T2
    (by simpa using h1) (by simpa using h2)]

/-- Claim C9: `compose` is deterministic: for a fixed service pool, request
and strategy, the result does not depend on the wall-clock budget as long as
the deadline does not cut the search (both budgets at least the iteration
ceiling); in particular two invocations under such budgets return identical
workflows and utility values. -/
theorem compose_deterministic (services : List Service)
    (request : CompositionRequest) (algorithm : String) (T1 T2 : ℕ)
    (h1 : max_iterations ≤ T1) (h2 : max_iterations ≤ T2) :
    compose services request algorithm T1 =
      compose services request algorithm T2 := by
  unfold compose
  dsimp only
  by_cases hrel : get_relevant_services services request = []
  · rw [if_pos hrel, if_pos hrel]
  · rw [if_neg hrel, if_neg hrel]
    by_cases hd : algorithm = "dijkstra"
    · simp only [if_pos hd]
      rw [dijkstra_compose_time services request _ T1 T2 h1 h2]
    · simp only [if_neg hd]
      by_cases ha : algorithm = "astar"
      · simp only [if_pos ha]
        rw [astar_compose_time services request _ T1 T2 h1 h2]
      · simp only [if_neg ha]

/-- Witness for C9 at a concrete pool, request and pair of budgets. -/
theorem compose_deterministic_witness :
    max_iterations ≤ 500000 ∧ max_iterations ≤ 600000 ∧
    compose [svcW1] reqW "dijkstra" 500000 =
      compose [svcW1] reqW "dijkstra" 600000 :=
  ⟨by decide, by decide,
    compose_deterministic [svcW1] reqW "dijkstra" 500000 600000
      (by decide) (by decide)⟩

/-- The Dijkstra loop on an empty queue returns its accumulator. -/
theorem dijkstraLoop_empty (services : List Service)
    (request : CompositionRequest) (pool : List Service) (timeLimit : ℕ)
    (fuel : ℕ) (acc : SearchAcc SearchState) (h : acc.queue = []) :
    dijkstraLoop services request pool timeLimit fuel acc = acc := by
  cases fuel with
  | zero => rfl
  | succ n => rw [dijkstraLoop]; rw [if_pos h]

/-- The A* loop on an empty queue returns its accumulator. -/
theorem astarLoop_empty (services : List Service)
    (request : CompositionRequest) (maxRt : ℚ) (pool : List Service)
    (timeLimit : ℕ) (fuel : ℕ) (acc : SearchAcc AState) (h : acc.queue = []) :
    astarLoop services request maxRt pool timeLimit fuel acc = acc := by
  cases fuel with
  | zero => rfl
  | succ n => rw [astarLoop]; rw [if_pos h]

/-- The greedy loop stops immediately when the goal is already available. -/
theorem greedyLoop_goal (services : List Service)
    (request : CompositionRequest) (pool : List Service) (fuel : ℕ)
    (avail : Finset String) (path : List String) (utils : List ℚ) (steps : ℕ)
    (h : optMemF request.resultant avail = true) :
    greedyLoop services request pool fuel avail path utils steps =
      (avail, path, utils, steps) := by
  cases fuel with
  | zero => rfl
  | succ n => rw [greedyLoop]; rw [if_pos h]

/-- When the goal parameter is already provided, the Dijkstra run records at
best the empty path. -/
theorem dijkstraLoop_trivial (services : List Service)
    (request : CompositionRequest) (pool : List Service) (timeLimit : ℕ)
    (t : String) (hres : request.resultant = some t)
    (hin : t ∈ request.provided) :
    ∀ F : ℕ,
      (dijkstraLoop services request pool timeLimit F
        { queue := [(0, 0, ⟨0, [], request.provided.toFinset⟩)],
          best := [(request.provided.toFinset, 0)], counter := 0,
          bestSol := none, bestUtil := none, iterations := 0 }).bestSol = none ∨
      (dijkstraLoop services request pool timeLimit F
        { queue := [(0, 0, ⟨0, [], request.provided.toFinset⟩)],
          best := [(request.provided.toFinset, 0)], counter := 0,
          bestSol := none, bestUtil := none, iterations := 0 }).bestSol =
        some [] := by
  intro F
  cases F with
  | zero => exact Or.inl rfl
  | succ n =>
    rw [dijkstraLoop]
    dsimp only
    rw [if_neg (by simp)]
    by_cases hT : (0 : ℕ) < timeLimit
    · rw [if_neg (not_not_intro hT)]
      rw [show popMin [((0 : ℚ), 0,
          (⟨0, [], request.provided.toFinset⟩ : SearchState))] =
          some (((0 : ℚ), 0, ⟨0, [], request.provided.toFinset⟩), []) from rfl]
      dsimp only
      have hstale : staleB [(request.provided.toFinset, 0)]
          request.provided.toFinset (0 : ℚ) = false := by
        unfold staleB lookupBU
        rw [List.find?_cons_of_pos _ (by simp)]
        simp
      rw [if_neg (by rw [hstale]; simp)]
      have hgoal : optMemF request.resultant request.provided.toFinset
          = true := by
        rw [hres]
        unfold optMemF
        simp [hin]
      rw [if_pos hgoal]
      right
      rw [dijkstraLoop_empty _ _ _ _ n _ (by rw [(recordGoal_fields _ _ _).1])]
      unfold recordGoal
      rw [if_pos (by rfl : betterThan (0 : ℚ) none = true)]
    · rw [if_pos hT]
      exact Or.inl rfl

/-- When the goal parameter is already provided, the A* run records at best
the empty path. -/
theorem astarLoop_trivial (services : List Service)
    (request : CompositionRequest) (maxRt : ℚ) (pool : List Service)
    (timeLimit : ℕ) (t : String) (hres : request.resultant = some t)
    (hin : t ∈ request.provided) :
    ∀ F : ℕ,
      (astarLoop services request maxRt pool timeLimit F
        { queue := [(0, 0, ⟨0, 0, [], request.provided.toFinset⟩)],
          best := [(request.provided.toFinset, 0)], counter := 0,
          bestSol := none, bestUtil := none, iterations := 0 }).bestSol = none ∨
      (astarLoop services request maxRt pool timeLimit F
        { queue := [(0, 0, ⟨0, 0, [], request.provided.toFinset⟩)],
          best := [(request.provided.toFinset, 0)], counter := 0,
          bestSol := none, bestUtil := none, iterations := 0 }).bestSol =
        some [] := by
  intro F
  cases F with
  | zero => exact Or.inl rfl
  | succ n =>
    rw [astarLoop]
    dsimp only
    rw [if_neg (by simp)]
    by_cases hT : (0 : ℕ) < timeLimit
    · rw [if_neg (not_not_intro hT)]
      rw [show popMin [((0 : ℚ), 0,
          (⟨0, 0, [], request.provided.toFinset⟩ : AState))] =
          some (((0 : ℚ), 0, ⟨0, 0, [], request.provided.toFinset⟩), [])
          from rfl]
      dsimp only
      have hstale : staleB [(request.provided.toFinset, 0)]
          request.provided.toFinset (0 : ℚ) = false := by
        unfold staleB lookupBU
        rw [List.find?_cons_of_pos _ (by simp)]
        simp
      rw [if_neg (by rw [hstale]; simp)]
      have hgoal : optMemF request.resultant request.provided.toFinset
          = true := by
        rw [hres]
        unfold optMemF
        simp [hin]
      rw [if_pos hgoal]
      right
      rw [astarLoop_empty _ _ _ _ _ n _ (by rw [(recordGoal_fields _ _ _).1])]
      unfold recordGoal
      rw [if_pos (by rfl : betterThan (0 : ℚ) none = true)]
    · rw [if_pos hT]
      exact Or.inl rfl

/-- Function `_dijkstra_compose` returns the empty workflow when the goal is already
among the provided parameters. -/
theorem dijkstra_goal_trivial (services : List Service)
    (request : CompositionRequest) (pool : List Service) (timeLimit : ℕ)
    (t : String) (hres : request.resultant = some t)
    (hin : t ∈ request.provided) :
    (dijkstra_compose services request pool timeLimit).services = [] ∧
    (dijkstra_compose services request pool timeLimit).workflow = [] := by
  unfold dijkstra_compose
  dsimp only
  rcases dijkstraLoop_trivial services request pool timeLimit t hres hin
    max_iterations with h | h
  · rw [h]
    exact ⟨rfl, rfl⟩
  · rw [h]
    exact ⟨rfl, rfl⟩

/-- Function `_astar_compose` returns the empty workflow when the goal is already
among the provided parameters. -/
theorem astar_goal_trivial (services : List Service)
    (request : CompositionRequest) (pool : List Service) (timeLimit : ℕ)
    (t : String) (hres : request.resultant = some t)
    (hin : t ∈ request.provided) :
    (astar_compose services request pool timeLimit).services = [] ∧
    (astar_compose services request pool timeLimit).workflow = [] := by
  unfold astar_compose
  dsimp only
  rcases astarLoop_trivial services request (max_rt pool) pool timeLimit t
    hres hin max_iterations with h | h
  · rw [h]
    exact ⟨rfl, rfl⟩
  · rw [h]
    exact ⟨rfl, rfl⟩

/-- Function `_greedy_compose` returns the empty workflow (though it marks
`success = True` itself, later overwritten by `compose`) when the goal is
already among the provided parameters. -/
theorem greedy_goal_trivial (services : List Service)
    (request : CompositionRequest) (pool : List Service) (t : String)
    (hres : request.resultant = some t) (hin : t ∈ request.provided) :
    (greedy_compose services request pool).services = [] ∧
    (greedy_compose services request pool).workflow = [] := by
  unfold greedy_compose
  have hgoal : optMemF request.resultant request.provided.toFinset = true := by
    rw [hres]
    unfold optMemF
    simp [hin]
  rw [greedyLoop_goal services request pool 50 request.provided.toFinset
    [] [] 0 hgoal]
  dsimp only
  rw [if_pos hgoal]
  exact ⟨by simp, rfl⟩

/-- Claim C10: for every request whose resultant parameter is already among
the provided parameters, `compose` returns `success = false` with an empty
workflow under every strategy: a zero-service solution is never reported as
a success, because `compose` sets success only when the returned service
list is nonempty and dijkstra/astar treat an empty goal path as no solution
found. -/
theorem no_zero_service_success (services : List Service)
    (request : CompositionRequest) (algorithm : String) (timeLimit : ℕ)
    (t : String) (hres : request.resultant = some t)
    (hin : t ∈ request.provided) :
    (compose services request algorithm timeLimit).success = false ∧
    (compose services request algorithm timeLimit).workflow = [] := by
  unfold compose
  dsimp only
  by_cases hrel : get_relevant_services services request = []
  · rw [if_pos hrel]
    exact ⟨rfl, rfl⟩
  · rw [if_neg hrel]
    by_cases hd : algorithm = "dijkstra"
    · simp only [if_pos hd]
      obtain ⟨hsvc, hwf⟩ := dijkstra_goal_trivial services request
        (get_relevant_services services request) timeLimit t hres hin
      refine ⟨?_, hwf⟩
      show decide (0 < (dijkstra_compose services request
        (get_relevant_services services request) timeLimit).services.length)
        = false
      rw [hsvc]
      rfl
    · simp only [if_neg hd]
      by_cases ha : algorithm = "astar"
      · simp only [if_pos ha]
        obtain ⟨hsvc, hwf⟩ := astar_goal_trivial services request
          (get_relevant_services services request) timeLimit t hres hin
        refine ⟨?_, hwf⟩
        show decide (0 < (astar_compose services request
          (get_relevant_services services request) timeLimit).services.length)
          = false
        rw [hsvc]
        rfl
      · simp only [if_neg ha]
        obtain ⟨hsvc, hwf⟩ := greedy_goal_trivial services request
          (get_relevant_services services request) t hres hin
        refine ⟨?_, hwf⟩
        show decide (0 < (greedy_compose services request
          (get_relevant_services services request)).services.length) = false
        rw [hsvc]
        rfl

/-- Witness for C10 at a concrete request whose target is provided. -/
theorem no_zero_service_success_witness :
    reqWx.resultant = some "x" ∧ "x" ∈ reqWx.provided ∧
    (compose [svcW1] reqWx "dijkstra" max_iterations).success = false ∧
    (compose [svcW1] reqWx "dijkstra" max_iterations).workflow = [] :=
  ⟨rfl, by decide,
    (no_zero_service_success [svcW1] reqWx "dijkstra" max_iterations "x"
      rfl (by decide)).1,
    (no_zero_service_success [svcW1] reqWx "dijkstra" max_iterations "x"
      rfl (by decide)).2⟩

end WSComp
